import Mathlib

/-!
Verification of the MindInsight lineage `Querier`
(`mindinsight/lineagemgr/querier/querier.py`).

The development is a shallow embedding of the querier module:

* scalar Python values that flow through filter conditions become `Value`
  (Python `None`, `int`, `str`);
* the dataset-graph structures that are only ever compared for deep equality
  become an abstract type parameter `G` with decidable equality;
* the external collaborators (`LineageObj`, `LineageSummaryAnalyzer`,
  `FIELD_MAPPING` — these live outside the verified file) are modelled from
  the specification: `LineageObj` as a record of its queried attributes, the
  analyzer as an oracle `String → ParseOutcome G`, `FIELD_MAPPING` as the
  list `fm` of its keys, passed explicitly to every function that consults it;
* Python exceptions become `Except QuerierError`;
* mutation of the `Querier` instance becomes explicit state passing over
  `QuerierState`.

String utilities (`strLt`, `natToStr`, `strToNat`, substring search, POSIX
`dirname`) are implemented over character lists so that every definition
reduces in the kernel.
-/

/-! ## String helpers (kernel-reducible models of the Python primitives) -/

/-- Python `<` on single characters (by code point). -/
def charLt (a b : Char) : Bool := a.toNat < b.toNat

/-- Python lexicographic `<` on strings, over the character lists. -/
def strLtList : List Char → List Char → Bool
  | [], [] => false
  | [], _ :: _ => true
  | _ :: _, [] => false
  | a :: as, b :: bs => charLt a b || (a == b && strLtList as bs)

/-- Python `a < b` for strings. -/
def strLt (a b : String) : Bool := strLtList a.data b.data

/-- Python `max(iterable)` on strings: first maximal element wins ties.
The empty case is unreachable in this development (Python would raise). -/
def maxLex : List String → String
  | [] => ""
  | s :: ss => ss.foldl (fun a b => if strLt a b then b else a) s

/-- Decimal digits of a natural number; structural fuel makes it reduce. -/
def natToStrAux : Nat → Nat → List Char → List Char
  | 0, _, acc => acc
  | fuel + 1, n, acc =>
    let d := Char.ofNat (48 + n % 10)
    if n < 10 then d :: acc else natToStrAux fuel (n / 10) (d :: acc)

/-- Python `str(n)` for a natural number. -/
def natToStr (n : Nat) : String := String.mk (natToStrAux (n + 1) n [])

def strToNatAux : List Char → Nat → Nat
  | [], acc => acc
  | c :: cs, acc => strToNatAux cs (acc * 10 + (c.toNat - 48))

/-- Python `int(s)` restricted to strings of decimal digits (the only inputs
this development feeds it; Python raises on anything else). -/
def strToNat (s : String) : Nat := strToNatAux s.data 0

/-- Helper for `lastSlashEnd`: position just after the last `/`. -/
def lastSlashEndAux : List Char → Nat → Nat → Nat
  | [], _, best => best
  | c :: cs, pos, best => lastSlashEndAux cs (pos + 1) (if c == '/' then pos + 1 else best)

/-- CPython `posixpath.dirname`: `i = p.rfind(sep) + 1; head = p[:i];`
then strip trailing separators unless `head` consists only of them. -/
def dirname (p : String) : String :=
  let cs := p.data
  let head := cs.take (lastSlashEndAux cs 0 0)
  if !head.isEmpty && !(head.all (fun c => c == '/')) then
    String.mk ((head.reverse.dropWhile (fun c => c == '/')).reverse)
  else
    String.mk head

/-- First list is an initial segment of the second (helper for substring). -/
def leadsList : List Char → List Char → Bool
  | [], _ => true
  | _ :: _, [] => false
  | a :: as, b :: bs => a == b && leadsList as bs

/-- Occurrence of `t` anywhere in `s` (helper for substring). -/
def subOccurs (t : List Char) : List Char → Bool
  | [] => t.isEmpty
  | c :: rest => leadsList t (c :: rest) || subOccurs t rest

/-- Python `t in s` for strings: substring containment. -/
def strContainsSub (s t : String) : Bool := subOccurs t.data s.data

/-! ## Python dict as an association list (insertion order preserved) -/

/-- Python `d.get(k)` / `d[k]` lookup. -/
def dictGet {α : Type} (m : List (String × α)) (k : String) : Option α :=
  (m.find? (fun kv => kv.1 == k)).map (fun kv => kv.2)

/-- Python `k in d`. -/
def dictHas {α : Type} (m : List (String × α)) (k : String) : Bool :=
  (dictGet m k).isSome

/-- Python `d[k] = v`: update in place if the key exists (iteration order
is preserved; keys are unique in a Python dict, so replacing the first
occurrence is replacing the only one), otherwise append. -/
def dictInsert {α : Type} (m : List (String × α)) (k : String) (v : α) : List (String × α) :=
  match m with
  | [] => [(k, v)]
  | kv :: rest => if kv.1 == k then (k, v) :: rest else kv :: dictInsert rest k v

/-! ## Values and condition vocabulary -/

/-- A scalar Python value as it appears in filter conditions and record
fields: `None`, an `int`, or a `str`. -/
inductive Value where
  | vNone
  | vInt (i : Int)
  | vStr (s : String)
deriving DecidableEq, Repr

/-- An expected value in a filter expression: a scalar, or a list
(for the `in` expression). -/
inductive ExpValue where
  | scalar (v : Value)
  | vlist (vs : List Value)
deriving DecidableEq, Repr

/-- A value of a condition entry: a control scalar (`limit`, `offset`,
`sorted_name`, `sorted_type`, `lineage_type`) or a sub-mapping
of expressions for a field filter. -/
inductive CondValue where
  | cint (i : Int)
  | cstr (s : String)
  | exprs (es : List (String × ExpValue))
deriving DecidableEq, Repr

/-- A condition: a Python dict from field / control names. -/
abbrev Condition : Type := List (String × CondValue)

/-- Errors of the querier.  `paramError` is `LineageQuerierParamException`
(an invalid parameter value), `paramTypeError` is `LineageParamTypeError`,
`summaryParseError` is `LineageSummaryParseException` (all logs failed to
parse).  `pyRuntime` stands for an uncaught Python runtime error
(`IndexError`, `AttributeError`, ...) in corners outside the documented
input domain. -/
inductive QuerierError where
  | paramError (arg : String) (msg : String)
  | paramTypeError (msg : String)
  | summaryParseError
  | pyRuntime
deriving DecidableEq, Repr

/-- `ConditionParam._value2member_map_` membership: the control keys. -/
def is_condition_type (k : String) : Bool :=
  (["limit", "offset", "sorted_name", "sorted_type", "lineage_type"] : List String).contains k

/-- `ExpressionType.is_valid_exp`: the six recognized expression kinds. -/
def is_valid_exp (k : String) : Bool :=
  (["eq", "lt", "gt", "le", "ge", "in"] : List String).contains k

/-! ## Python comparison operators on scalar values

Comparisons between values of different types (and orderings involving
`None`) raise `TypeError` in Python; those corners are never exercised by
this module's documented inputs and are mapped to `false` here. -/

/-- Python `a < b` on scalars of equal type. -/
def pyLt : Value → Value → Bool
  | .vInt a, .vInt b => a < b
  | .vStr a, .vStr b => strLt a b
  | _, _ => false

/-- Python `a > b` on scalars of equal type. -/
def pyGt : Value → Value → Bool
  | .vInt a, .vInt b => b < a
  | .vStr a, .vStr b => strLt b a
  | _, _ => false

/-- Python `a <= b` on scalars of equal type. -/
def pyLe : Value → Value → Bool
  | .vInt a, .vInt b => a ≤ b
  | .vStr a, .vStr b => !(strLt b a)
  | _, _ => false

/-- Python `a >= b` on scalars of equal type. -/
def pyGe : Value → Value → Bool
  | .vInt a, .vInt b => b ≤ a
  | .vStr a, .vStr b => !(strLt a b)
  | _, _ => false

/-- Python `operator.contains(container, x)`: list membership, or substring
for strings.  A non-container raises `TypeError` in Python (unmodelled). -/
def pyContains (container : ExpValue) (x : Value) : Bool :=
  match container with
  | .vlist vs => vs.contains x
  | .scalar (.vStr s) =>
    match x with
    | .vStr t => strContainsSub s t
    | _ => false
  | .scalar _ => false

/-- Python `getattr(operator, k)(a, e)` for `k` among `eq/lt/gt/le/ge`.
Equality against a list expected value is `False` in Python; orderings
against a list raise `TypeError` (unmodelled).  An unrecognized `k` is
validated away by the caller (`_filter`). -/
def applyOp (k : String) (a : Value) (e : ExpValue) : Bool :=
  match e with
  | .scalar v =>
    if k == "eq" then a == v
    else if k == "lt" then pyLt a v
    else if k == "gt" then pyGt a v
    else if k == "le" then pyLe a v
    else if k == "ge" then pyGe a v
    else false
  | .vlist _ => false

/-- `ExpressionType.is_match(except_key, except_value, actual_value)`. -/
def is_match (except_key : String) (except_value : ExpValue) (actual_value : Value) : Bool :=
  if actual_value == .vNone &&
      (["lt", "gt", "le", "ge"] : List String).contains except_key then
    false
  else if except_key == "in" then
    pyContains except_value actual_value
  else
    applyOp except_key actual_value except_value

/-- `LineageFilterKey.get_key_list()`. -/
def filter_key_list : List String :=
  ["metric", "hyper_parameters", "algorithm", "train_dataset",
   "valid_dataset", "model", "dataset_graph"]

/-- `LineageFilterKey.is_valid_filter_key`. -/
def is_valid_filter_key (k : String) : Bool := filter_key_list.contains k

/-- Python `s.startswith(t)` (over the character lists, so it reduces). -/
def strStartsWith (s t : String) : Bool := leadsList t.data s.data

/-- `Querier._is_valid_field(field_name)`.  Note the source's inverted
naming: the result is `True` exactly when the field is NOT supported
(absent from `FIELD_MAPPING` and not `metric_`-prefixed).  `fm` is the
key list of the external `FIELD_MAPPING` table. -/
def is_valid_field (fm : List String) (field_name : String) : Bool :=
  !(fm.contains field_name) && !(strStartsWith field_name ("metric_"))

/-! ## The record model (external `LineageObj`, modelled from the spec) -/

/-- Modelled from the spec: the external `RunRecord`/`LineageObj` data
holder (its class lives in `query_model.py`, outside this module).  It
exposes a unique `summary_dir` (the location key), an optional dataset
graph (`G` abstracts the nested structure, compared by deep equality), the
post-hoc mutable `dataset_mark` tag, and named-field lookup backed by an
association list `values` (the spec's `valueOf`: null is a valid answer). -/
structure LineageObj (G : Type) where
  summary_dir : String
  dataset_graph : Option G
  dataset_mark : String
  values : List (String × Value)
deriving DecidableEq, Repr

/-- Modelled from the spec: `RunRecord.valueOf(fieldName) → value | null`
(`LineageObj.get_value_by_key`): the field's current value, null when the
field exists without a value or is not recorded for this run. -/
def get_value_by_key {G : Type} (o : LineageObj G) (k : String) : Value :=
  (dictGet o.values k).getD .vNone

/-- Modelled from the spec: the result shape of `RunRecord.get(keys)`
(`LineageObj.get_summary_info`): always carries the location key, plus one
entry per requested key. -/
structure SummaryInfo where
  summary_dir : String
  entries : List (String × Option Value)
deriving DecidableEq, Repr

/-- Modelled from the spec: `RunRecord.get(keys)`. -/
def get_summary_info {G : Type} (o : LineageObj G) (keys : List String) : SummaryInfo :=
  { summary_dir := o.summary_dir
    entries := keys.map (fun k => (k, dictGet o.values k)) }

/-- Modelled from the spec: the default full filtration projection
(`LineageObj.to_filtration_dict`); its exact layout is owned by the
external record class, so the model keeps the record's queried content. -/
structure FiltrationView where
  summary_dir : String
  dataset_mark : String
  values : List (String × Value)
deriving DecidableEq, Repr

def to_filtration_dict {G : Type} (o : LineageObj G) : FiltrationView :=
  { summary_dir := o.summary_dir, dataset_mark := o.dataset_mark, values := o.values }

/-- Modelled from the spec: the dataset-oriented projection
(`LineageObj.to_dataset_lineage_dict`). -/
structure DatasetView (G : Type) where
  summary_dir : String
  dataset_mark : String
  dataset_graph : Option G
deriving DecidableEq, Repr

def to_dataset_lineage_dict {G : Type} (o : LineageObj G) : DatasetView G :=
  { summary_dir := o.summary_dir, dataset_mark := o.dataset_mark,
    dataset_graph := o.dataset_graph }

/-- An object in the query result: one of the two projections. -/
inductive ObjectView (G : Type) where
  | flt (v : FiltrationView)
  | ds (v : DatasetView G)
deriving DecidableEq, Repr

/-- The `filter_summary_lineage` result: `{object: [...], count: n}`. -/
structure LineageInfoResult (G : Type) where
  object : List (ObjectView G)
  count : Nat
deriving DecidableEq, Repr

/-! ## Dataset-mark grouping (`Querier._add_dataset_mark`) -/

/-- The `marked_dataset_group` table: tag string → representative
dataset-graph structure (`None` for "no graph"), in insertion order. -/
abbrev MarkTable (G : Type) : Type := List (String × Option G)

/-- One record's pass over the group table: the body of the `for lineage`
loop.  The inner `for` with `break` is the first entry whose representative
equals the record's graph (the `'0'` sentinel never collides with a real
tag, which are all positive decimal numerals); on no match the minted tag
is `str(int(max(keys)) + 1)` — note `max` on Python strings is
lexicographic — and the table is updated at that tag. -/
def markStep {G : Type} [DecidableEq G] (table : MarkTable G) (g : Option G) :
    String × MarkTable G :=
  match table.find? (fun kv => kv.2 == g) with
  | some kv => (kv.1, table)
  | none =>
    let mark := natToStr (strToNat (maxLex (table.map (fun kv => kv.1))) + 1)
    (mark, dictInsert table mark g)

/-- The `for lineage in self._lineage_objects` loop, threading the table. -/
def markRecords {G : Type} [DecidableEq G] (table : MarkTable G) :
    List (LineageObj G) → List (LineageObj G)
  | [] => []
  | o :: os =>
    let r := markStep table o.dataset_graph
    { o with dataset_mark := r.1 } :: markRecords r.2 os

/-- `Querier._add_dataset_mark`: recompute every record's mark with the
table seeded `{'1': None}`. -/
def addDatasetMark {G : Type} [DecidableEq G] (objs : List (LineageObj G)) :
    List (LineageObj G) :=
  markRecords ([("1", none)]) objs

/-! Specification-side functions used to characterize the grouping pass. -/

/-- Distinct non-null graphs in order of first appearance. -/
def dedupStep {G : Type} [DecidableEq G] (acc : List G) : Option G → List G
  | none => acc
  | some g => if g ∈ acc then acc else acc ++ [g]

def dedupFrom {G : Type} [DecidableEq G] (acc : List G) : List (Option G) → List G
  | [] => acc
  | g :: gs => dedupFrom (dedupStep acc g) gs

/-- The mark a record receives, as a function of its graph and the list `D`
of distinct non-null graphs of the whole sequence (first-appearance order):
`"1"` for no graph, tags `"2"`–`"9"` for the first eight distinct graphs,
and `"10"` for every later distinct graph (the lexicographic-`max` slip in
the source makes the tag numbers saturate at 10). -/
def classifyMark {G : Type} [DecidableEq G] (D : List G) (g : Option G) : String :=
  match g with
  | none => "1"
  | some g => if D.indexOf g < 8 then natToStr (D.indexOf g + 2) else "10"

/-! ## Ingestion state machine -/

/-- Modelled from the spec: the data a successful
`LineageSummaryAnalyzer.get_summary_infos` + `LineageObj` construction
yields for one log (the analyzer itself lives outside this module): the
optional dataset graph and the named field values of the new record. -/
structure LineageRecord (G : Type) where
  dataset_graph : Option G
  values : List (String × Value)
deriving DecidableEq, Repr

/-- Modelled from the spec: the outcome of parsing one summary log path.
`failRetryable` covers the three caught exception kinds
(`LineageSummaryAnalyzeException`, `LineageEventNotExistException`,
`LineageEventFieldNotExistException`); any other exception is fatal and
propagates. -/
inductive ParseOutcome (G : Type) where
  | ok (rec : LineageRecord G)
  | failRetryable
  | failFatal (e : QuerierError)
deriving DecidableEq, Repr

/-- The analyzer oracle: what parsing each path yields at this moment
(the file system may change between query calls, so each call passes the
oracle it observes). -/
def ParseOracle (G : Type) : Type := String → ParseOutcome G

/-- The mutable state of a `Querier` instance: `_lineage_objects`,
`_index_map`, `_parse_failed_paths` and `_size`. -/
structure QuerierState (G : Type) where
  lineage_objects : List (LineageObj G)
  index_map : List (String × Nat)
  parse_failed_paths : List String
  size : Nat
deriving DecidableEq, Repr

/-- The record built by `LineageObj(log_dir, ...)` on a successful parse;
the dataset mark starts unset and is assigned by the grouping pass. -/
def mkLineageObj {G : Type} (dir : String) (r : LineageRecord G) : LineageObj G :=
  { summary_dir := dir, dataset_graph := r.dataset_graph,
    dataset_mark := "", values := r.values }

/-- `Querier._parse_summary_log(log_path, index, is_save_fail_path)`:
returns the Python method's boolean result together with the new state;
a non-retryable analyzer failure propagates. -/
def parseSummaryLog {G : Type} [DecidableEq G] (parse : ParseOracle G)
    (log_path : String) (index : Nat) (is_save_fail_path : Bool)
    (s : QuerierState G) : Except QuerierError (Bool × QuerierState G) :=
  let log_dir := dirname log_path
  match parse log_path with
  | .ok rec =>
    .ok (true,
      { s with
        lineage_objects := addDatasetMark (s.lineage_objects ++ [mkLineageObj log_dir rec])
        index_map := dictInsert s.index_map log_dir index })
  | .failRetryable =>
    .ok (false,
      if is_save_fail_path then
        { s with parse_failed_paths := s.parse_failed_paths ++ [log_path] }
      else s)
  | .failFatal e => .error e

/-- The `for path in summary_path` loop of `Querier._parse_summary_logs`:
the insertion index is incremented only after a successful parse. -/
def initLoop {G : Type} [DecidableEq G] (parse : ParseOracle G) :
    List String → Nat → QuerierState G → Except QuerierError (QuerierState G)
  | [], _, s => .ok s
  | p :: ps, index, s => do
    let r ← parseSummaryLog parse p index true s
    initLoop parse ps (if r.1 then index + 1 else index) r.2

/-- The dynamic type of the `summary_path` argument: a string, a list, or
any other Python object (with its truthiness). -/
inductive PathsArg where
  | pstr (s : String)
  | plist (ps : List String)
  | pother (truthy : Bool)
deriving DecidableEq, Repr

/-- Python truthiness of the `summary_path` argument (`not summary_path`). -/
def pyFalsy : PathsArg → Bool
  | .pstr s => s.isEmpty
  | .plist ps => ps.isEmpty
  | .pother truthy => !truthy

/-- `Querier._parse_summary_logs(summary_path)`: empty check first, then
dispatch on the argument type, then the terminal all-logs-unparsable check. -/
def parse_summary_logs {G : Type} [DecidableEq G] (parse : ParseOracle G)
    (arg : PathsArg) (s : QuerierState G) : Except QuerierError (QuerierState G) := do
  if pyFalsy arg then
    .error (.paramError ("summary_path") ("The summary path is empty."))
  else
    let s₁ ←
      match arg with
      | .pstr p => do
        let r ← parseSummaryLog parse p 0 true s
        .ok r.2
      | .plist ps => initLoop parse ps 0 s
      | .pother _ => .error (.paramTypeError ("Summary path is not str or list."))
    if s₁.lineage_objects = [] then .error .summaryParseError else .ok s₁

/-- `Querier.__init__(summary_path)`: parse from the empty state, then set
`_size` to the number of records produced. -/
def querierInit {G : Type} [DecidableEq G] (parse : ParseOracle G)
    (arg : PathsArg) : Except QuerierError (QuerierState G) := do
  let s ← parse_summary_logs parse arg
    { lineage_objects := [], index_map := [], parse_failed_paths := [], size := 0 }
  .ok { s with size := s.lineage_objects.length }

/-- The `for path in self._parse_failed_paths` loop of
`Querier._parse_fail_summary_logs`: each path is re-attempted once with
`is_save_fail_path=False` at insertion index `self._size`, which is
incremented per success; still-failing paths are collected in order. -/
def retryLoop {G : Type} [DecidableEq G] (parse : ParseOracle G) :
    List String → QuerierState G → Except QuerierError (QuerierState G × List String)
  | [], s => .ok (s, [])
  | p :: ps, s => do
    let r ← parseSummaryLog parse p s.size false s
    let s₂ := if r.1 then { r.2 with size := r.2.size + 1 } else r.2
    let rest ← retryLoop parse ps s₂
    .ok (rest.1, if r.1 then rest.2 else p :: rest.2)

/-- `Querier._parse_fail_summary_logs()`: skipped when the failed list is
empty; otherwise the loop runs and the failed list is replaced wholesale. -/
def parseFailSummaryLogs {G : Type} [DecidableEq G] (parse : ParseOracle G)
    (s : QuerierState G) : Except QuerierError (QuerierState G) :=
  if s.parse_failed_paths = [] then .ok s
  else do
    let r ← retryLoop parse s.parse_failed_paths s
    .ok { r.1 with parse_failed_paths := r.2 }

/-! ## The filter / sort / paginate engine -/

/-- The inner loop of `_filter` over one field's expression sub-mapping:
an unrecognized expression kind raises; a failed match returns `False`
immediately (skipping the remaining entries of the whole condition). -/
def filterExprs (value : Value) : List (String × ExpValue) → Except QuerierError Bool
  | [] => .ok true
  | (exp_key, exp_value) :: rest =>
    if !(is_valid_exp exp_key) then
      .error (.paramError ("condition") ("The expression " ++ exp_key ++ " not supported."))
    else if !(is_match exp_key exp_value value) then
      .ok false
    else
      filterExprs value rest

/-- The `_filter(lineage_obj)` closure of `filter_summary_lineage`: walk
the condition entries in order; control keys are skipped; an unsupported
field name raises; otherwise every expression entry must match.  A field
key bound to a non-mapping value would raise `AttributeError` in Python
(`pyRuntime` here). -/
def filterOne {G : Type} (fm : List String) (cond : List (String × CondValue))
    (o : LineageObj G) : Except QuerierError Bool :=
  match cond with
  | [] => .ok true
  | (condition_key, condition_value) :: rest =>
    if is_condition_type condition_key then
      filterOne fm rest o
    else if is_valid_field fm condition_key then
      .error (.paramError ("condition") ("The field " ++ condition_key ++ " not supported"))
    else
      match condition_value with
      | .exprs es => do
        let b ← filterExprs (get_value_by_key o condition_key) es
        if b then filterOne fm rest o else .ok false
      | _ => .error .pyRuntime

/-- `list(filter(_filter, self._lineage_objects))`: records are evaluated
in order and the first raised error propagates. -/
def filterRecords {G : Type} (fm : List String) (cond : List (String × CondValue)) :
    List (LineageObj G) → Except QuerierError (List (LineageObj G))
  | [] => .ok []
  | o :: os => do
    let b ← filterOne fm cond o
    let rest ← filterRecords fm cond os
    .ok (if b then o :: rest else rest)

/-- The `_cmp(obj1, obj2)` closure: both null compare equal, a null sorts
before any value, otherwise `(value1 > value2) - (value1 < value2)`. -/
def cmpField {G : Type} (sorted_name : String) (o1 o2 : LineageObj G) : Int :=
  let value1 := get_value_by_key o1 sorted_name
  let value2 := get_value_by_key o2 sorted_name
  if value1 = .vNone ∧ value2 = .vNone then 0
  else if value1 = .vNone then -1
  else if value2 = .vNone then 1
  else (if pyGt value1 value2 then 1 else 0) - (if pyLt value1 value2 then 1 else 0)

/-- Stable insertion into a sorted list: the new element (earlier in the
original sequence) goes before the first element not strictly below it. -/
def insertCmp {α : Type} (cmp : α → α → Int) (a : α) : List α → List α
  | [] => [a]
  | b :: bs => if cmp a b ≤ 0 then a :: b :: bs else b :: insertCmp cmp a bs

/-- A stable comparison sort.  CPython's `sorted` (timsort) is stable, and
a stable sort's output is uniquely determined by the comparison, so this
insertion sort is extensionally the model of `sorted(l, key=cmp_to_key(c))`. -/
def stableSortCmp {α : Type} (cmp : α → α → Int) : List α → List α
  | [] => []
  | a :: as => insertCmp cmp a (stableSortCmp cmp as)

/-- `sorted(l, key=cmp_to_key(cmp), reverse=reverse)`.  CPython implements
`reverse=True` by reversing the list, sorting ascending (stable), and
reversing again — equal elements therefore keep their original relative
order, they are not reversed. -/
def pySortedByCmp {α : Type} (cmp : α → α → Int) (reverse : Bool) (l : List α) : List α :=
  if reverse then (stableSortCmp cmp l.reverse).reverse else stableSortCmp cmp l

/-- Python list slicing `l[a:b]` (step 1): negative indices count from the
end, out-of-range bounds are clamped. -/
def pySliceBound (len : Nat) (i : Int) : Nat :=
  if i < 0 then ((len : Int) + i).toNat else min i.toNat len

def pySlice {α : Type} (l : List α) (a b : Int) : List α :=
  (l.take (pySliceBound l.length b)).drop (pySliceBound l.length a)

/-- The integer value of a control key, with its default.  A non-integer
value would make the later slicing raise `TypeError` in Python
(outside the documented `int ≥ 0` domain, unmodelled). -/
def condGetInt (cond : List (String × CondValue)) (k : String) (dflt : Int) : Int :=
  match dictGet cond k with
  | some (.cint i) => i
  | _ => dflt

/-- The string value of a control key.  A non-string `sorted_name` would
make `_is_valid_field` raise `AttributeError` in Python (unmodelled). -/
def condGetStr (cond : List (String × CondValue)) (k : String) : String :=
  match dictGet cond k with
  | some (.cstr s) => s
  | _ => ""

/-- `Querier._handle_limit_and_offset(condition, result)`: defaults
`offset=0`, `limit=10`; a no-op when neither key is present; otherwise the
slice `result[offset * limit : limit * (offset + 1)]`. -/
def handle_limit_and_offset {α : Type} (condition : List (String × CondValue))
    (result : List α) : List α :=
  let offset := condGetInt condition ("offset") 0
  let limit := condGetInt condition ("limit") 10
  if !(dictHas condition ("offset")) && !(dictHas condition ("limit")) then
    result
  else
    pySlice result (offset * limit) (limit * (offset + 1))

/-- The body of `Querier.filter_summary_lineage` after the retry pass:
filter, optionally validate `sorted_name` and sort (reversed for
`sorted_type == 'descending'`), paginate, project and count. -/
def filterAfterRetry {G : Type} (fm : List String) (s : QuerierState G)
    (condition : Option (List (String × CondValue))) :
    Except QuerierError (LineageInfoResult G) := do
  let cond := condition.getD []
  let result ← filterRecords fm cond s.lineage_objects
  let result ←
    if dictHas cond ("sorted_name") then
      let sorted_name := condGetStr cond ("sorted_name")
      if is_valid_field fm sorted_name then
        .error (.paramError ("condition") ("The sorted name " ++ sorted_name ++ " not supported."))
      else
        let reverse := dictGet cond ("sorted_type") == some (.cstr ("descending"))
        .ok (pySortedByCmp (cmpField sorted_name) reverse result)
    else .ok result
  let offset_result := handle_limit_and_offset cond result
  let search_type := dictGet cond ("lineage_type")
  .ok { object := offset_result.map (fun item =>
          if search_type == some (.cstr ("dataset")) then
            ObjectView.ds (to_dataset_lineage_dict item)
          else
            ObjectView.flt (to_filtration_dict item))
        count := result.length }

/-- `Querier.filter_summary_lineage(condition)`: the retry pass runs
first, then the filter/sort/paginate engine on the healed state. -/
def filter_summary_lineage {G : Type} [DecidableEq G] (parse : ParseOracle G)
    (fm : List String) (s : QuerierState G)
    (condition : Option (List (String × CondValue))) :
    Except QuerierError (QuerierState G × LineageInfoResult G) := do
  let s' ← parseFailSummaryLogs parse s
  let info ← filterAfterRetry fm s' condition
  .ok (s', info)

/-- The body of `Querier.get_summary_lineage` after the retry pass:
validate the filter keys, then project all records or the one found
through `_index_map`.  Python's `self._lineage_objects[index]` would raise
`IndexError` on a stale index (`pyRuntime`; unreachable, see `StateOK`). -/
def getSummaryAfterRetry {G : Type} (s : QuerierState G)
    (summary_dir : Option String) (filter_keys : Option (List String)) :
    Except QuerierError (List SummaryInfo) := do
  let keys ←
    match filter_keys with
    | none => .ok filter_key_list
    | some ks =>
      match ks.find? (fun k => !(is_valid_filter_key k)) with
      | some k => .error (.paramError ("filter_keys") ("The filter key " ++ k ++ " is invalid."))
      | none => .ok ks
  match summary_dir with
  | none => .ok (s.lineage_objects.map (fun o => get_summary_info o keys))
  | some dir =>
    match dictGet s.index_map dir with
    | none => .error (.paramError ("summary_dir") ("Summary dir " ++ dir ++ " does not exist."))
    | some index =>
      match s.lineage_objects.get? index with
      | some obj => .ok [get_summary_info obj keys]
      | none => .error .pyRuntime

/-- `Querier.get_summary_lineage(summary_dir, filter_keys)`: the retry
pass runs first, then the lookup on the healed state. -/
def get_summary_lineage {G : Type} [DecidableEq G] (parse : ParseOracle G)
    (s : QuerierState G) (summary_dir : Option String)
    (filter_keys : Option (List String)) :
    Except QuerierError (QuerierState G × List SummaryInfo) := do
  let s' ← parseFailSummaryLogs parse s
  let r ← getSummaryAfterRetry s' summary_dir filter_keys
  .ok (s', r)

/-! ## Derived notions used in the statements of the theorems -/

/-- Whether a parse outcome is the fatal (propagating) kind. -/
def ParseOutcome.isFatal {G : Type} : ParseOutcome G → Bool
  | .failFatal _ => true
  | _ => false

/-- Whether parsing a path currently succeeds. -/
def parseOk {G : Type} (parse : ParseOracle G) (p : String) : Bool :=
  match parse p with
  | .ok _ => true
  | _ => false

/-- The record a currently-succeeding path produces (the fallback branch is
never reached where this is used). -/
def newObjOf {G : Type} (parse : ParseOracle G) (p : String) : LineageObj G :=
  match parse p with
  | .ok rec => mkLineageObj (dirname p) rec
  | _ => mkLineageObj (dirname p) { dataset_graph := none, values := [] }

/-- Pairs each path with its insertion index, counting from `start`. -/
def withIdx : List String → Nat → List (String × Nat)
  | [], _ => []
  | p :: ps, n => (dirname p, n) :: withIdx ps (n + 1)

/-- Folding `dictInsert` over a list of bindings. -/
def insertAll {α : Type} (m : List (String × α)) (l : List (String × α)) :
    List (String × α) :=
  l.foldl (fun acc kv => dictInsert acc kv.1 kv.2) m

/-- The invariant tying `_index_map` to the record sequence: `_size` is the
record count, every record's directory resolves to its position, every
index in the map points back at a record with that directory, and the
failed paths live in directories distinct from each other and from every
record. -/
def StateOK {G : Type} (s : QuerierState G) : Prop :=
  s.size = s.lineage_objects.length ∧
  (∀ k (h : k < s.lineage_objects.length),
    dictGet s.index_map ((s.lineage_objects.get ⟨k, h⟩).summary_dir) = some k) ∧
  (∀ d i, dictGet s.index_map d = some i →
    ∃ h : i < s.lineage_objects.length, (s.lineage_objects.get ⟨i, h⟩).summary_dir = d) ∧
  (s.parse_failed_paths.map dirname).Nodup ∧
  (∀ p ∈ s.parse_failed_paths, dirname p ∉ s.lineage_objects.map (fun o => o.summary_dir))

/-- States a querier built over the path list `ps` can reach: the freshly
constructed instance, and the result of any later retry pass (each pass may
observe a different file system, hence a fresh oracle). -/
inductive Reachable {G : Type} [DecidableEq G] (ps : List String) : QuerierState G → Prop
  | init (parse : ParseOracle G) (s : QuerierState G) :
      querierInit parse (.plist ps) = .ok s → Reachable ps s
  | retry (parse : ParseOracle G) (s s' : QuerierState G) :
      Reachable ps s → parseFailSummaryLogs parse s = .ok s' → Reachable ps s'

/-! ## Concrete instances used by witnesses and counterexamples -/

/-- An oracle under which every path fails retryably. -/
def exParse0 : ParseOracle Nat := fun _ => .failRetryable

/-- Ten records with pairwise-distinct dataset graphs. -/
def exDemo10 : List (LineageObj Nat) :=
  (List.range 10).map (fun i =>
    { summary_dir := natToStr i, dataset_graph := some i, dataset_mark := "", values := [] })

def exRecLR : LineageObj Nat :=
  { summary_dir := "/a", dataset_graph := none, dataset_mark := "1",
    values := [("learning_rate", .vInt 1)] }

/-- A querier holding one record with `learning_rate = 1`. -/
def exQs1 : QuerierState Nat :=
  { lineage_objects := [exRecLR], index_map := [("/a", 0)],
    parse_failed_paths := [], size := 1 }

/-- A condition whose first entry never matches and whose second entry
names an unsupported field. -/
def exCond2 : List (String × CondValue) :=
  [("learning_rate", .exprs [("eq", .scalar (.vInt 999))]),
   ("not_a_field", .exprs [("eq", .scalar (.vInt 1))])]

def exRecA : LineageObj Nat :=
  { summary_dir := "/d1", dataset_graph := none, dataset_mark := "1", values := [] }

def exRecB : LineageObj Nat :=
  { summary_dir := "/d2", dataset_graph := none, dataset_mark := "1", values := [] }

/-- A querier holding two records that tie on every sort key. -/
def exQs6 : QuerierState Nat :=
  { lineage_objects := [exRecA, exRecB], index_map := [("/d1", 0), ("/d2", 1)],
    parse_failed_paths := [], size := 2 }

def exCondAsc : List (String × CondValue) := [("sorted_name", .cstr ("learning_rate"))]

def exCondDesc : List (String × CondValue) :=
  [("sorted_name", .cstr ("learning_rate")), ("sorted_type", .cstr ("descending"))]

/-- An oracle under which only `/a/x.log` parses. -/
def exParseA : ParseOracle Nat := fun p =>
  if p = "/a/x.log" then .ok { dataset_graph := some 5, values := [("learning_rate", .vInt 1)] }
  else .failRetryable

/-- Three records: two sharing a dataset graph, one with none. -/
def exC4Recs : List (LineageObj Nat) :=
  [{ summary_dir := "/x1", dataset_graph := some 7, dataset_mark := "", values := [] },
   { summary_dir := "/x2", dataset_graph := none, dataset_mark := "", values := [] },
   { summary_dir := "/x3", dataset_graph := some 7, dataset_mark := "", values := [] }]

/-- An oracle under which `/a/x.log` and `/b/y.log` parse. -/
def exParseAB : ParseOracle Nat := fun p =>
  if p = "/a/x.log" then .ok { dataset_graph := some 5, values := [("learning_rate", .vInt 1)] }
  else if p = "/b/y.log" then .ok { dataset_graph := none, values := [("learning_rate", .vInt 2)] }
  else .failRetryable

/-- The state a retry pass over the failed paths `ps` produces (before the
failed list itself is replaced): still-failing paths leave the state alone;
each success appends its record (remarking the whole sequence), registers
its directory at the running `size` index, and bumps `size`. -/
def retryStateAfter {G : Type} [DecidableEq G] (parse : ParseOracle G)
    (ps : List String) (s : QuerierState G) : QuerierState G :=
  { lineage_objects :=
      if (ps.filter (fun p => parseOk parse p)).isEmpty then s.lineage_objects
      else addDatasetMark (s.lineage_objects ++
        (ps.filter (fun p => parseOk parse p)).map (newObjOf parse))
    index_map := insertAll s.index_map
      (withIdx (ps.filter (fun p => parseOk parse p)) s.size)
    parse_failed_paths := s.parse_failed_paths
    size := s.size + (ps.filter (fun p => parseOk parse p)).length }

/-- A querier holding one record, with two paths pending retry. -/
def exQsRetry : QuerierState Nat :=
  { lineage_objects := [exRecLR], index_map := [("/a", 0)],
    parse_failed_paths := ["/b/y.log", "/c/z.log"], size := 1 }

def exObjA : LineageObj Nat :=
  { summary_dir := "/a", dataset_graph := some 5, dataset_mark := "2",
    values := [("learning_rate", .vInt 1)] }

def exObjB : LineageObj Nat :=
  { summary_dir := "/b", dataset_graph := none, dataset_mark := "1",
    values := [("learning_rate", .vInt 2)] }

/-- The querier `exParseA` builds over the two paths. -/
def exQsInit : QuerierState Nat :=
  { lineage_objects := [exObjA], index_map := [("/a", 0)],
    parse_failed_paths := ["/b/y.log"], size := 1 }

/-- `exQsInit` after a retry pass under `exParseAB` heals `/b/y.log`. -/
def exQsHealed : QuerierState Nat :=
  { lineage_objects := [exObjA, exObjB], index_map := [("/a", 0), ("/b", 1)],
    parse_failed_paths := [], size := 2 }

/-- The state the initial-ingestion loop over `ps` produces, with `index`
the insertion counter for the next success: failures append the path to the
failed list; successes append their record, register their directory, and
advance the counter. -/
def initStateAfter {G : Type} [DecidableEq G] (parse : ParseOracle G)
    (ps : List String) (index : Nat) (s : QuerierState G) : QuerierState G :=
  { lineage_objects :=
      if (ps.filter (fun p => parseOk parse p)).isEmpty then s.lineage_objects
      else addDatasetMark (s.lineage_objects ++
        (ps.filter (fun p => parseOk parse p)).map (newObjOf parse))
    index_map := insertAll s.index_map
      (withIdx (ps.filter (fun p => parseOk parse p)) index)
    parse_failed_paths := s.parse_failed_paths ++ ps.filter (fun p => !(parseOk parse p))
    size := s.size }

/-! ## Characterization apparatus for the grouping pass -/

/-- The group-table segment for the distinct graphs `l`, tagged
`natToStr (i + 2)`, `natToStr (i + 3)`, ... -/
def buildTFrom {G : Type} (i : Nat) : List G → MarkTable G
  | [] => []
  | g :: gs => (natToStr (i + 2), some g) :: buildTFrom (i + 1) gs

/-- The tags of `buildTFrom i` for a segment of length `n`. -/
def tagsFrom (i : Nat) : Nat → List String
  | 0 => []
  | n + 1 => natToStr (i + 2) :: tagsFrom (i + 1) n

/-- Shape invariant of the group table after processing records whose
distinct non-null graphs (in first-appearance order) are `D`: up to eight
distinct graphs the table is the seed plus one tag per graph; from the
ninth on, the `"10"` entry holds the representative most recently minted
there (always a graph outside the first eight). -/
def TableInv {G : Type} (D : List G) (T : MarkTable G) : Prop :=
  D.Nodup ∧
  ((D.length ≤ 8 ∧ T = ("1", none) :: buildTFrom 0 D) ∨
   (9 ≤ D.length ∧ ∃ r, r ∈ D ∧ r ∉ D.take 8 ∧
      T = ("1", none) :: buildTFrom 0 (D.take 8) ++ [("10", some r)]))

/-- `markRecords`, re-expressed over the distinct-graph accumulator. -/
def markedFrom {G : Type} [DecidableEq G] (D : List G) :
    List (LineageObj G) → List (LineageObj G)
  | [] => []
  | o :: os =>
    { o with dataset_mark := classifyMark (dedupStep D o.dataset_graph) o.dataset_graph } ::
      markedFrom (dedupStep D o.dataset_graph) os

/-! ## Helper lemmas -/

theorem except_bind_ok {E A B : Type} (a : A) (f : A → Except E B) :
    (Except.ok a >>= f) = f a := rfl

theorem except_bind_err {E A B : Type} (e : E) (f : A → Except E B) :
    ((Except.error e : Except E A) >>= f) = Except.error e := rfl

theorem dictGet_dictInsert {α : Type} (m : List (String × α)) (k k' : String) (v : α) :
    dictGet (dictInsert m k v) k' = if k' = k then some v else dictGet m k' := by
  induction m with
  | nil =>
    by_cases h : k' = k
    · subst h; simp [dictInsert, dictGet]
    · simp [dictInsert, dictGet, List.find?_cons_of_neg, beq_iff_eq, h, Ne.symm h]
  | cons kv rest ih =>
    by_cases hk : kv.1 = k
    · simp only [dictInsert, hk, beq_self_eq_true, if_true]
      by_cases h : k' = k
      · subst h; simp [dictGet]
      · have h1 : ¬(kv.1 = k') := by rw [hk]; exact fun hh => h hh.symm
        simp [dictGet, List.find?_cons_of_neg, beq_iff_eq, h, h1, Ne.symm h]
    · have hkb : (kv.1 == k) = false := by simp [beq_iff_eq, hk]
      simp only [dictInsert, hkb, Bool.false_eq_true, if_false]
      by_cases h : k' = kv.1
      · have : (kv.1 == k') = true := by simp [beq_iff_eq, h.symm]
        have hkk : ¬(k' = k) := fun hh => hk (h ▸ hh)
        simp [dictGet, List.find?_cons_of_pos, this, hkk]
      · have hb : (kv.1 == k') = false := by simp [beq_iff_eq]; exact fun hh => h hh.symm
        simp only [dictGet] at ih ⊢
        rw [List.find?_cons_of_neg _ (by simp [hb]), List.find?_cons_of_neg _ (by simp [hb])]
        exact ih

theorem insertCmp_length {α : Type} (cmp : α → α → Int) (a : α) (l : List α) :
    (insertCmp cmp a l).length = l.length + 1 := by
  induction l with
  | nil => rfl
  | cons b bs ih =>
    simp only [insertCmp]
    split
    · simp
    · simp [ih]

theorem stableSortCmp_length {α : Type} (cmp : α → α → Int) (l : List α) :
    (stableSortCmp cmp l).length = l.length := by
  induction l with
  | nil => rfl
  | cons a as ih => simp [stableSortCmp, insertCmp_length, ih]

theorem pySortedByCmp_length {α : Type} (cmp : α → α → Int) (rev : Bool) (l : List α) :
    (pySortedByCmp cmp rev l).length = l.length := by
  unfold pySortedByCmp
  split <;> simp [stableSortCmp_length]

theorem stableSortCmp_of_ties {α : Type} (cmp : α → α → Int) (l : List α)
    (h : ∀ x ∈ l, ∀ y ∈ l, cmp x y = 0) : stableSortCmp cmp l = l := by
  induction l with
  | nil => rfl
  | cons a as ih =>
    have has : stableSortCmp cmp as = as :=
      ih (fun x hx y hy => h x (List.mem_cons_of_mem _ hx) y (List.mem_cons_of_mem _ hy))
    simp only [stableSortCmp, has]
    cases as with
    | nil => rfl
    | cons b bs =>
      have hab : cmp a b = 0 :=
        h a (List.mem_cons_self _ _) b (List.mem_cons_of_mem _ (List.mem_cons_self _ _))
      simp [insertCmp, hab]

theorem pySortedByCmp_of_ties {α : Type} (cmp : α → α → Int) (l : List α)
    (h : ∀ x ∈ l, ∀ y ∈ l, cmp x y = 0) :
    pySortedByCmp cmp true l = l ∧ pySortedByCmp cmp false l = l := by
  have hrev : stableSortCmp cmp l.reverse = l.reverse :=
    stableSortCmp_of_ties cmp l.reverse
      (fun x hx y hy => h x (List.mem_reverse.mp hx) y (List.mem_reverse.mp hy))
  constructor
  · simp [pySortedByCmp, hrev]
  · simp [pySortedByCmp, stableSortCmp_of_ties cmp l h]

theorem filterOne_controls {G : Type} (fm : List String)
    (pre rest : List (String × CondValue)) (o : LineageObj G)
    (h : ∀ kv ∈ pre, is_condition_type kv.1 = true) :
    filterOne fm (pre ++ rest) o = filterOne fm rest o := by
  induction pre with
  | nil => rfl
  | cons kv ps ih =>
    have hk : is_condition_type kv.1 = true := h kv (List.mem_cons_self _ _)
    simp only [List.cons_append, filterOne, hk, if_true]
    exact ih (fun kv' h' => h kv' (List.mem_cons_of_mem _ h'))

/-! ## Claim C5 -/

/-- C5: `is_match(kind, expected, actual)` returns false for every expected
value whenever the actual value is null and the kind is one of the four
ordering comparisons; for `in` it returns membership of the actual value in
the list-like expected value; and for the other recognized kinds it applies
the corresponding binary comparison operator to `(actual, expected)` under
the value type's natural ordering/equality. -/
theorem c5_is_match_semantics :
    (∀ k e, k ∈ (["lt", "gt", "le", "ge"] : List String) → is_match k e .vNone = false) ∧
    (∀ vs a, is_match ("in") (.vlist vs) a = vs.contains a) ∧
    (∀ v a, is_match ("eq") (.scalar v) a = (a == v)) ∧
    (∀ i j : Int, is_match ("lt") (.scalar (.vInt j)) (.vInt i) = decide (i < j)) ∧
    (∀ i j : Int, is_match ("gt") (.scalar (.vInt j)) (.vInt i) = decide (j < i)) ∧
    (∀ i j : Int, is_match ("le") (.scalar (.vInt j)) (.vInt i) = decide (i ≤ j)) ∧
    (∀ i j : Int, is_match ("ge") (.scalar (.vInt j)) (.vInt i) = decide (j ≤ i)) ∧
    (∀ a b : String, is_match ("lt") (.scalar (.vStr b)) (.vStr a) = strLt a b) := by
  refine ⟨?_, ?_, ?_, ?_, ?_, ?_, ?_, ?_⟩
  · intro k e hk
    fin_cases hk <;> rfl
  · intro vs a
    cases a <;> rfl
  · intro v a
    cases a <;> rfl
  · intro i j; rfl
  · intro i j; rfl
  · intro i j; rfl
  · intro i j; rfl
  · intro a b; rfl

/-- Witness for C5 at concrete inputs. -/
theorem c5_witness :
    is_match ("lt") (.scalar (.vInt 3)) .vNone = false ∧
    is_match ("in") (.vlist [.vInt 1, .vInt 2]) (.vInt 2) = true ∧
    is_match ("eq") (.scalar (.vInt 2)) (.vInt 2) = true ∧
    is_match ("lt") (.scalar (.vInt 3)) (.vInt 2) = true :=
  ⟨c5_is_match_semantics.1 ("lt") (.scalar (.vInt 3)) (by decide),
   (c5_is_match_semantics.2.1 [.vInt 1, .vInt 2] (.vInt 2)).trans (by decide),
   (c5_is_match_semantics.2.2.1 (.vInt 2) (.vInt 2)).trans (by decide),
   (c5_is_match_semantics.2.2.2.1 2 3).trans (by decide)⟩

/-! ## Claim C3 -/

/-- C3: the claim that a freshly minted dataset-mark tag is the numeric
successor of the maximum existing tag fails on the code: `max` is applied
to the tag strings, which compares lexicographically.  On ten records with
pairwise-distinct graphs the table keys reach `{"1", ..., "9", "10"}`, the
lexicographic maximum is `"9"`, and the tenth distinct structure is minted
`"10"` — colliding with the ninth record's tag and overwriting its
representative — where the numeric rule of the claim would mint `"11"`. -/
theorem c3_lexical_max_eval :
    (addDatasetMark exDemo10).map (fun o => o.dataset_mark) =
      ["2", "3", "4", "5", "6", "7", "8", "9", "10", "10"] ∧
    maxLex (["1", "2", "3", "4", "5", "6", "7", "8", "9", "10"]) = "9" ∧
    natToStr (strToNat ("10") + 1) = "11" := by
  exact ⟨by decide, by decide, by decide⟩

/-! ## Claim C7 -/

/-- C7: pagination is a no-op when neither `limit` nor `offset` is present;
otherwise it returns exactly the half-open slice
`[offset * limit, offset * limit + limit)` of the sequence, with `offset`
defaulting to 0 and `limit` to 10, out-of-range bounds yielding a shorter
or empty window. -/
theorem c7_handle_limit_and_offset_spec {α : Type} (cond : List (String × CondValue))
    (l : List α) :
    (dictHas cond ("offset") = false → dictHas cond ("limit") = false →
      handle_limit_and_offset cond l = l) ∧
    (∀ o lm : Nat, dictGet cond ("offset") = some (.cint (o : Int)) →
      dictGet cond ("limit") = some (.cint (lm : Int)) →
      handle_limit_and_offset cond l = (l.take (o * lm + lm)).drop (o * lm)) ∧
    (∀ o : Nat, dictGet cond ("offset") = some (.cint (o : Int)) →
      dictHas cond ("limit") = false →
      handle_limit_and_offset cond l = (l.take (o * 10 + 10)).drop (o * 10)) ∧
    (∀ lm : Nat, dictHas cond ("offset") = false →
      dictGet cond ("limit") = some (.cint (lm : Int)) →
      handle_limit_and_offset cond l = l.take lm) := by
  have slice_nat : ∀ (a b : Nat), pySlice l (a : Int) (b : Int) = (l.take b).drop a := by
    intro a b
    unfold pySlice pySliceBound
    have ha : ¬((a : Int) < 0) := by exact_mod_cast Int.not_lt.mpr (Int.ofNat_nonneg a)
    have hb : ¬((b : Int) < 0) := by exact_mod_cast Int.not_lt.mpr (Int.ofNat_nonneg b)
    rw [if_neg ha, if_neg hb]
    simp only [Int.toNat_natCast]
    rcases Nat.le_total b l.length with h | h
    · rw [min_eq_left h]
      rcases Nat.le_total a l.length with h2 | h2
      · rw [min_eq_left h2]
      · rw [min_eq_right h2]
        have hlen : (l.take b).length ≤ l.length := by
          rw [List.length_take]; omega
        rw [List.drop_eq_nil_of_le (by omega), List.drop_eq_nil_of_le (by omega)]
    · rw [min_eq_right h, List.take_length, List.take_of_length_le h]
      rcases Nat.le_total a l.length with h2 | h2
      · rw [min_eq_left h2]
      · rw [min_eq_right h2, List.drop_eq_nil_of_le (le_refl _),
          List.drop_eq_nil_of_le (by omega)]
  refine ⟨?_, ?_, ?_, ?_⟩
  · intro h1 h2
    simp [handle_limit_and_offset, h1, h2]
  · intro o lm h1 h2
    have hh1 : dictHas cond ("offset") = true := by simp [dictHas, h1]
    simp only [handle_limit_and_offset, condGetInt, h1, h2, hh1]
    have : ((o : Int) * lm) = ((o * lm : Nat) : Int) := by push_cast; ring
    have h2' : ((lm : Int) * ((o : Int) + 1)) = ((o * lm + lm : Nat) : Int) := by
      push_cast; ring
    simp only [Bool.not_true, Bool.false_and, Bool.false_eq_true, if_false, this, h2']
    exact slice_nat _ _
  · intro o h1 h2
    have hh1 : dictHas cond ("offset") = true := by simp [dictHas, h1]
    have h2' : dictGet cond ("limit") = none := by
      cases hx : dictGet cond ("limit") with
      | none => rfl
      | some x => rw [dictHas, hx] at h2; simp at h2
    simp only [handle_limit_and_offset, condGetInt, h1, h2', hh1]
    have e1 : ((o : Int) * 10) = ((o * 10 : Nat) : Int) := by push_cast; ring
    have e2 : ((10 : Int) * ((o : Int) + 1)) = ((o * 10 + 10 : Nat) : Int) := by
      push_cast; ring
    simp only [Bool.not_true, Bool.false_and, Bool.false_eq_true, if_false, e1, e2]
    exact slice_nat _ _
  · intro lm h1 h2
    have hh2 : dictHas cond ("limit") = true := by simp [dictHas, h2]
    have h1' : dictGet cond ("offset") = none := by
      cases hx : dictGet cond ("offset") with
      | none => rfl
      | some x => rw [dictHas, hx] at h1; simp at h1
    simp only [handle_limit_and_offset, condGetInt, h1', h2, hh2]
    have e1 : ((0 : Int) * (lm : Int)) = ((0 : Nat) : Int) := by push_cast; ring
    have e2 : ((lm : Int) * ((0 : Int) + 1)) = ((0 + lm : Nat) : Int) := by push_cast; ring
    simp only [Bool.not_true, Bool.and_false, Bool.false_eq_true, if_false, e1, e2]
    rw [slice_nat 0 (0 + lm)]
    simp

/-- Witness for C7 at concrete inputs. -/
theorem c7_witness :
    handle_limit_and_offset ([("offset", .cint 1), ("limit", .cint 2)])
      ([10, 11, 12, 13, 14] : List Nat) =
      (([10, 11, 12, 13, 14] : List Nat).take (1 * 2 + 2)).drop (1 * 2) ∧
    handle_limit_and_offset ([] : List (String × CondValue)) ([10, 11] : List Nat) = [10, 11] :=
  ⟨(c7_handle_limit_and_offset_spec _ _).2.1 1 2 (by decide) (by decide),
   (c7_handle_limit_and_offset_spec _ _).1 (by decide) (by decide)⟩

/-! ## Claim C2 -/

/-- C2 counterexample: a condition containing an unsupported field name
(`not_a_field`) whose entry is preceded by a never-matching expression does
NOT fail the query — `_filter` returns `False` at the first non-match and
never reaches the offending entry for any record, so the query succeeds
with an empty result instead of raising a configuration error. -/
theorem c2_counterexample :
    filter_summary_lineage exParse0 (["learning_rate"]) exQs1 (some exCond2) =
      .ok (exQs1, { object := [], count := 0 }) ∧
    is_valid_field (["learning_rate"]) ("not_a_field") = true :=
  ⟨rfl, by decide⟩

/-- C2 (amended): an unsupported field name or unrecognized expression kind
fails the whole query with a parameter error — before any record is
filtered into the result — provided the offending entry is reached before
an expression non-match short-circuits `_filter`; in particular whenever
the offending entry is the first non-control entry of the condition (and,
for an expression kind, the first expression of its sub-mapping), given the
held record sequence is non-empty (every constructed `Querier` holds at
least one record). -/
theorem c2_unknown_name_first_entry {G : Type} [DecidableEq G]
    (parse : ParseOracle G) (fm : List String) (s s' : QuerierState G)
    (pre : List (String × CondValue)) (k : String) (v : CondValue)
    (rest : List (String × CondValue)) (o : LineageObj G) (os : List (LineageObj G))
    (hretry : parseFailSummaryLogs parse s = .ok s')
    (hobjs : s'.lineage_objects = o :: os)
    (hpre : ∀ kv ∈ pre, is_condition_type kv.1 = true)
    (hk : is_condition_type k = false) :
    (is_valid_field fm k = true →
      filter_summary_lineage parse fm s (some (pre ++ (k, v) :: rest)) =
        .error (.paramError ("condition") ("The field " ++ k ++ " not supported"))) ∧
    (∀ ek ev es, is_valid_field fm k = false → v = .exprs ((ek, ev) :: es) →
      is_valid_exp ek = false →
      filter_summary_lineage parse fm s (some (pre ++ (k, v) :: rest)) =
        .error (.paramError ("condition") ("The expression " ++ ek ++ " not supported."))) := by
  constructor
  · intro hvf
    have h1 : filterOne fm (pre ++ (k, v) :: rest) o =
        .error (.paramError ("condition") ("The field " ++ k ++ " not supported")) := by
      rw [filterOne_controls fm pre _ o hpre]
      simp [filterOne, hk, hvf]
    simp [filter_summary_lineage, hretry, filterAfterRetry, hobjs, filterRecords, h1,
      except_bind_ok, except_bind_err]
  · intro ek ev es hvf hv hexp
    subst hv
    have h1 : filterOne fm (pre ++ (k, .exprs ((ek, ev) :: es)) :: rest) o =
        .error (.paramError ("condition") ("The expression " ++ ek ++ " not supported.")) := by
      rw [filterOne_controls fm pre _ o hpre]
      simp [filterOne, hk, hvf, filterExprs, hexp, except_bind_ok, except_bind_err]
    simp [filter_summary_lineage, hretry, filterAfterRetry, hobjs, filterRecords, h1,
      except_bind_ok, except_bind_err]

/-- Witness for the amended C2 at a concrete input. -/
theorem c2_witness :
    filter_summary_lineage exParse0 (["learning_rate"]) exQs1
      (some [("not_a_field", CondValue.exprs [("eq", .scalar (.vInt 1))])]) =
      .error (.paramError ("condition") ("The field " ++ "not_a_field" ++ " not supported")) :=
  (c2_unknown_name_first_entry exParse0 (["learning_rate"]) exQs1 exQs1 []
    ("not_a_field") (CondValue.exprs [("eq", .scalar (.vInt 1))]) [] exRecLR []
    rfl rfl (by simp) (by decide)).1 (by decide)

/-! ## Claim C6 -/

/-- C6 counterexample: two records that tie on the sort key.  The code's
`sorted(..., reverse=True)` keeps tied records in their original relative
order, so the descending output equals the ascending output — it is NOT
the reversal of the ascending output, which would swap the two records. -/
theorem c6_counterexample :
    filter_summary_lineage exParse0 (["learning_rate"]) exQs6 (some exCondDesc) =
      .ok (exQs6, { object := [.flt (to_filtration_dict exRecA), .flt (to_filtration_dict exRecB)],
                    count := 2 }) ∧
    filter_summary_lineage exParse0 (["learning_rate"]) exQs6 (some exCondAsc) =
      .ok (exQs6, { object := [.flt (to_filtration_dict exRecA), .flt (to_filtration_dict exRecB)],
                    count := 2 }) ∧
    ([ObjectView.flt (to_filtration_dict exRecA), ObjectView.flt (to_filtration_dict exRecB)] :
        List (ObjectView Nat)) ≠
      List.reverse [ObjectView.flt (to_filtration_dict exRecA),
        ObjectView.flt (to_filtration_dict exRecB)] :=
  ⟨rfl, rfl, by decide⟩

/-- C6 (amended): the comparator treats two null field values as equal,
sorts a null before any non-null value, and otherwise applies the value
type's natural total order; `sorted_type == "descending"` is CPython's
`reverse=True` — the reversal of the ascending stable sort of the reversed
sequence — under which records with equal sort keys keep their original
relative order (in particular an all-tie sequence is returned unchanged),
rather than appearing reversed. -/
theorem c6_cmp_and_descending_semantics {G : Type} (sorted_name : String) :
    (∀ o1 o2 : LineageObj G,
      (get_value_by_key o1 sorted_name = .vNone → get_value_by_key o2 sorted_name = .vNone →
        cmpField sorted_name o1 o2 = 0) ∧
      (get_value_by_key o1 sorted_name = .vNone → get_value_by_key o2 sorted_name ≠ .vNone →
        cmpField sorted_name o1 o2 = -1) ∧
      (get_value_by_key o1 sorted_name ≠ .vNone → get_value_by_key o2 sorted_name = .vNone →
        cmpField sorted_name o1 o2 = 1) ∧
      (∀ i j : Int, get_value_by_key o1 sorted_name = .vInt i →
        get_value_by_key o2 sorted_name = .vInt j →
        cmpField sorted_name o1 o2 = (if j < i then 1 else 0) - (if i < j then 1 else 0))) ∧
    (∀ (α : Type) (cmp : α → α → Int) (l : List α),
      (∀ x ∈ l, ∀ y ∈ l, cmp x y = 0) →
      pySortedByCmp cmp true l = l ∧ pySortedByCmp cmp false l = l) ∧
    (∀ (α : Type) (cmp : α → α → Int) (l : List α),
      pySortedByCmp cmp true l = (stableSortCmp cmp l.reverse).reverse) := by
  refine ⟨?_, ?_, ?_⟩
  · intro o1 o2
    refine ⟨?_, ?_, ?_, ?_⟩
    · intro h1 h2
      simp [cmpField, h1, h2]
    · intro h1 h2
      simp [cmpField, h1, h2]
    · intro h1 h2
      simp [cmpField, h1, h2]
    · intro i j h1 h2
      simp [cmpField, h1, h2, pyGt, pyLt]
  · intro α cmp l h
    exact pySortedByCmp_of_ties cmp l h
  · intro α cmp l
    simp [pySortedByCmp]

/-- Witness for the amended C6 at concrete inputs. -/
theorem c6_witness :
    cmpField ("metric_accuracy") exRecA exRecB = 0 ∧
    pySortedByCmp (fun _ _ => (0 : Int)) true ([1, 2] : List Nat) = [1, 2] :=
  ⟨((c6_cmp_and_descending_semantics ("metric_accuracy")).1 exRecA exRecB).1 rfl rfl,
   ((c6_cmp_and_descending_semantics (G := Nat) ("metric_accuracy")).2.1 Nat
      (fun _ _ => (0 : Int)) [1, 2] (by decide)).1⟩

theorem buildTFrom_keys {G : Type} (i : Nat) (l : List G) :
    (buildTFrom i l).map (fun kv => kv.1) = tagsFrom i l.length := by
  induction l generalizing i with
  | nil => rfl
  | cons g gs ih => simp [buildTFrom, tagsFrom, ih]

theorem buildTFrom_append {G : Type} (i : Nat) (l : List G) (g : G) :
    buildTFrom i (l ++ [g]) = buildTFrom i l ++ [(natToStr (i + l.length + 2), some g)] := by
  induction l generalizing i with
  | nil => simp [buildTFrom]
  | cons h t ih =>
    simp only [List.cons_append, buildTFrom, List.length_cons, List.append_eq]
    rw [ih (i + 1)]
    have : i + 1 + t.length = i + (t.length + 1) := by omega
    rw [this]

theorem find?_buildTFrom_of_mem {G : Type} [DecidableEq G] (i : Nat) (l : List G) (g : G)
    (hnd : l.Nodup) (hmem : g ∈ l) :
    (buildTFrom i l).find? (fun kv => kv.2 == some g) =
      some (natToStr (l.indexOf g + i + 2), some g) := by
  induction l generalizing i with
  | nil => cases hmem
  | cons h t ih =>
    by_cases hg : h = g
    · subst hg
      rw [buildTFrom, List.find?_cons_of_pos _ (by simp)]
      simp [List.indexOf_cons_self]
    · rw [buildTFrom, List.find?_cons_of_neg _ (by simp [hg])]
      have hmem' : g ∈ t := by
        rcases List.mem_cons.mp hmem with h' | h'
        · exact absurd h'.symm hg
        · exact h'
      rw [ih (i + 1) (List.Nodup.of_cons hnd) hmem', List.indexOf_cons_ne _ hg]
      have : t.indexOf g + (i + 1) + 2 = Nat.succ (t.indexOf g) + i + 2 := by omega
      rw [this]

theorem find?_buildTFrom_of_not_mem {G : Type} [DecidableEq G] (i : Nat) (l : List G) (g : G)
    (h : g ∉ l) :
    (buildTFrom i l).find? (fun kv => kv.2 == some g) = none := by
  induction l generalizing i with
  | nil => rfl
  | cons a t ih =>
    have ha : a ≠ g := fun he => h (he ▸ List.mem_cons_self a t)
    rw [buildTFrom, List.find?_cons_of_neg _ (by simp [ha])]
    exact ih (i + 1) (fun hm => h (List.mem_cons_of_mem _ hm))

theorem mint_small (n : Nat) (hn : n ≤ 8) :
    natToStr (strToNat (maxLex ("1" :: tagsFrom 0 n)) + 1) = natToStr (n + 2) ∧
    (natToStr (n + 2)) ∉ ("1" :: tagsFrom 0 n) := by
  interval_cases n <;> exact ⟨by decide, by decide⟩

theorem mint_overflow :
    natToStr (strToNat (maxLex ("1" :: (tagsFrom 0 8 ++ ["10"]))) + 1) = "10" ∧
    ("10" : String) ∉ ("1" :: tagsFrom 0 8) := by
  exact ⟨by decide, by decide⟩

theorem dictInsert_of_fresh {α : Type} (m : List (String × α)) (k : String) (v : α)
    (h : ∀ kv ∈ m, kv.1 ≠ k) : dictInsert m k v = m ++ [(k, v)] := by
  induction m with
  | nil => rfl
  | cons kv rest ih =>
    have : (kv.1 == k) = false := by
      simp [beq_iff_eq]
      exact h kv (List.mem_cons_self _ _)
    simp only [dictInsert, this, Bool.false_eq_true, if_false, List.cons_append,
      List.cons.injEq, true_and]
    exact ih (fun kv' h' => h kv' (List.mem_cons_of_mem _ h'))

theorem dictInsert_skip_front {α : Type} (m₁ m₂ : List (String × α)) (k : String) (v : α)
    (h : ∀ kv ∈ m₁, kv.1 ≠ k) :
    dictInsert (m₁ ++ m₂) k v = m₁ ++ dictInsert m₂ k v := by
  induction m₁ with
  | nil => rfl
  | cons kv rest ih =>
    have : (kv.1 == k) = false := by
      simp [beq_iff_eq]
      exact h kv (List.mem_cons_self _ _)
    simp only [List.cons_append, dictInsert, this, Bool.false_eq_true, if_false,
      List.cons.injEq, true_and]
    exact ih (fun kv' h' => h kv' (List.mem_cons_of_mem _ h'))

theorem fresh_of_not_mem_keys {α : Type} (m : List (String × α)) (k : String)
    (h : k ∉ m.map (fun kv => kv.1)) : ∀ kv ∈ m, kv.1 ≠ k := by
  intro kv hkv he
  exact h (he ▸ List.mem_map_of_mem (fun kv => kv.1) hkv)

theorem markStep_spec {G : Type} [DecidableEq G] (D : List G) (T : MarkTable G)
    (g : Option G) (hInv : TableInv D T) :
    (markStep T g).1 = classifyMark (dedupStep D g) g ∧
    TableInv (dedupStep D g) (markStep T g).2 := by
  obtain ⟨hnd, hsh⟩ := hInv
  cases g with
  | none =>
    have hT : ∃ rest, T = ("1", none) :: rest := by
      rcases hsh with ⟨_, h⟩ | ⟨_, r, _, _, h⟩
      · exact ⟨_, h⟩
      · exact ⟨_, h⟩
    obtain ⟨rest, hTe⟩ := hT
    have hfind : T.find? (fun kv => kv.2 == (none : Option G)) = some ("1", none) := by
      rw [hTe]
      exact List.find?_cons_of_pos _ (by simp)
    simp only [markStep, hfind]
    exact ⟨rfl, ⟨hnd, hsh⟩⟩
  | some g =>
    rcases hsh with ⟨hlen, hT⟩ | ⟨hlen, r, hrD, hrT, hT⟩
    · -- at most eight distinct graphs so far
      by_cases hmem : g ∈ D
      · have hfind : T.find? (fun kv => kv.2 == some g) =
            some (natToStr (D.indexOf g + 0 + 2), some g) := by
          rw [hT, List.find?_cons_of_neg _ (by simp)]
          exact find?_buildTFrom_of_mem 0 D g hnd hmem
        have hidx : D.indexOf g < 8 :=
          lt_of_lt_of_le (List.indexOf_lt_length.mpr hmem) hlen
        have hded : dedupStep D (some g) = D := by simp [dedupStep, hmem]
        simp only [markStep, hfind, hded]
        constructor
        · simp [classifyMark, hidx]
        · exact ⟨hnd, Or.inl ⟨hlen, hT⟩⟩
      · have hfind : T.find? (fun kv => kv.2 == some g) = none := by
          rw [hT, List.find?_cons_of_neg _ (by simp)]
          exact find?_buildTFrom_of_not_mem 0 D g hmem
        have hkeys : T.map (fun kv => kv.1) = "1" :: tagsFrom 0 D.length := by
          rw [hT]; simp [buildTFrom_keys]
        obtain ⟨hmint, hfresh⟩ := mint_small D.length hlen
        have hded : dedupStep D (some g) = D ++ [g] := by simp [dedupStep, hmem]
        have hidx : (D ++ [g]).indexOf g = D.length := by
          rw [List.indexOf_append_of_not_mem hmem]
          simp [List.indexOf_cons_self]
        have hmint' : natToStr (strToNat (maxLex (T.map (fun kv => kv.1))) + 1) =
            natToStr (D.length + 2) := by rw [hkeys]; exact hmint
        have hfresh' : ∀ kv ∈ T, kv.1 ≠ natToStr (D.length + 2) := by
          apply fresh_of_not_mem_keys
          rw [hkeys]; exact hfresh
        have hinsert : dictInsert T (natToStr (D.length + 2)) (some g) =
            T ++ [(natToStr (D.length + 2), some g)] := dictInsert_of_fresh _ _ _ hfresh'
        have hshape : T ++ [(natToStr (D.length + 2), some g)] =
            ("1", none) :: buildTFrom 0 (D ++ [g]) := by
          rw [hT, buildTFrom_append]
          simp
        have hnd' : (D ++ [g]).Nodup := by
          simp [List.nodup_append, hnd, hmem]
        simp only [markStep, hfind, hmint', hinsert, hded]
        constructor
        · -- minted mark agrees with classifyMark
          simp only [classifyMark, hidx]
          rcases Nat.lt_or_ge D.length 8 with h8 | h8
          · simp [h8]
          · have h88 : D.length = 8 := by omega
            simp [h88, show ¬ (8 < 8) by omega]
            decide
        · -- invariant restored
          rw [hshape]
          refine ⟨hnd', ?_⟩
          rcases Nat.lt_or_ge D.length 8 with h8 | h8
          · exact Or.inl ⟨by simp; omega, rfl⟩
          · have h88 : D.length = 8 := by omega
            refine Or.inr ⟨by simp; omega, g, by simp, ?_, ?_⟩
            · have : (D ++ [g]).take 8 = D := by
                rw [List.take_append_eq_append_take]
                simp [h88]
              rw [this]
              exact hmem
            · have htake : (D ++ [g]).take 8 = D := by
                rw [List.take_append_eq_append_take]
                simp [h88]
              rw [htake, buildTFrom_append]
              have : natToStr (0 + D.length + 2) = "10" := by
                rw [h88]; decide
              rw [this]
              simp [h88]
    · -- nine or more distinct graphs: the saturated table
      have h8 : (D.take 8).length = 8 := by
        rw [List.length_take]; omega
      have hnd8 : (D.take 8).Nodup := List.Nodup.sublist (List.take_sublist _ _) hnd
      by_cases hmem8 : g ∈ D.take 8
      · -- resolved among the first eight tags
        have hmem : g ∈ D := List.mem_of_mem_take hmem8
        have hidx8 : (D.take 8).indexOf g = D.indexOf g := by
          conv_rhs => rw [← List.take_append_drop 8 D]
          rw [List.indexOf_append_of_mem hmem8]
        have hidxlt : D.indexOf g < 8 := by
          rw [← hidx8]
          exact lt_of_lt_of_le (List.indexOf_lt_length.mpr hmem8) (le_of_eq h8)
        have hfind : T.find? (fun kv => kv.2 == some g) =
            some (natToStr (D.indexOf g + 0 + 2), some g) := by
          rw [hT, List.find?_append, List.find?_cons_of_neg _ (by simp),
            find?_buildTFrom_of_mem 0 (D.take 8) g hnd8 hmem8, hidx8]
          rfl
        have hded : dedupStep D (some g) = D := by simp [dedupStep, hmem]
        simp only [markStep, hfind, hded]
        refine ⟨by simp [classifyMark, hidxlt], ⟨hnd, Or.inr ⟨hlen, r, hrD, hrT, hT⟩⟩⟩
      · by_cases hr : g = r
        · -- matches the current overflow representative
          subst hr
          have hmem : g ∈ D := hrD
          have hfind : T.find? (fun kv => kv.2 == some g) = some ("10", some g) := by
            rw [hT, List.find?_append, List.find?_cons_of_neg _ (by simp),
              find?_buildTFrom_of_not_mem 0 (D.take 8) g hmem8]
            simp
          have hded : dedupStep D (some g) = D := by simp [dedupStep, hmem]
          have hidxge : 8 ≤ D.indexOf g := by
            have heq : D.indexOf g = (D.take 8).length + (D.drop 8).indexOf g := by
              conv_lhs => rw [← List.take_append_drop 8 D]
              rw [List.indexOf_append_of_not_mem hmem8]
            rw [heq, h8]
            omega
          simp only [markStep, hfind, hded]
          refine ⟨by simp [classifyMark, show ¬ (D.indexOf g < 8) by omega],
            ⟨hnd, Or.inr ⟨hlen, g, hrD, hmem8, hT⟩⟩⟩
        · -- no tag matches: mint "10" again, overwriting the representative
          have hfind : T.find? (fun kv => kv.2 == some g) = none := by
            rw [hT, List.find?_append, List.find?_cons_of_neg _ (by simp),
              find?_buildTFrom_of_not_mem 0 (D.take 8) g hmem8]
            have hr' : ¬ r = g := fun hh => hr hh.symm
            simp [hr']
          have hkeys : T.map (fun kv => kv.1) = "1" :: (tagsFrom 0 8 ++ ["10"]) := by
            rw [hT]
            simp [buildTFrom_keys, h8]
          have hmint' : natToStr (strToNat (maxLex (T.map (fun kv => kv.1))) + 1) = "10" := by
            rw [hkeys]; exact mint_overflow.1
          have hfreshfront : ∀ kv ∈ (("1", (none : Option G)) :: buildTFrom 0 (D.take 8)),
              kv.1 ≠ "10" := by
            apply fresh_of_not_mem_keys
            simp only [List.map_cons, buildTFrom_keys, h8]
            exact mint_overflow.2
          have hinsert : dictInsert T ("10") (some g) =
              ("1", none) :: buildTFrom 0 (D.take 8) ++ [("10", some g)] := by
            rw [hT, dictInsert_skip_front _ _ _ _ hfreshfront]
            rfl
          by_cases hmem : g ∈ D
          · have hded : dedupStep D (some g) = D := by simp [dedupStep, hmem]
            have hidxge : 8 ≤ D.indexOf g := by
              have heq : D.indexOf g = (D.take 8).length + (D.drop 8).indexOf g := by
                conv_lhs => rw [← List.take_append_drop 8 D]
                rw [List.indexOf_append_of_not_mem hmem8]
              rw [heq, h8]
              omega
            simp only [markStep, hfind, hmint', hinsert, hded]
            refine ⟨by simp [classifyMark, show ¬ (D.indexOf g < 8) by omega],
              ⟨hnd, Or.inr ⟨hlen, g, hmem, hmem8, rfl⟩⟩⟩
          · have hded : dedupStep D (some g) = D ++ [g] := by simp [dedupStep, hmem]
            have hidx : (D ++ [g]).indexOf g = D.length := by
              rw [List.indexOf_append_of_not_mem hmem]
              simp [List.indexOf_cons_self]
            have hnd' : (D ++ [g]).Nodup := by
              simp [List.nodup_append, hnd, hmem]
            have htake : (D ++ [g]).take 8 = D.take 8 := by
              rw [List.take_append_eq_append_take]
              simp [show 8 - D.length = 0 by omega]
            simp only [markStep, hfind, hmint', hinsert, hded]
            constructor
            · simp [classifyMark, hidx, show ¬ (D.length < 8) by omega]
            · refine ⟨hnd', Or.inr ⟨by simp; omega, g, by simp, ?_, by rw [htake]⟩⟩
              rw [htake]
              intro hc
              exact hmem (List.mem_of_mem_take hc)

theorem dedupStep_extends {G : Type} [DecidableEq G] (D : List G) (g : Option G) :
    ∃ t, dedupStep D g = D ++ t := by
  cases g with
  | none => exact ⟨[], by simp [dedupStep]⟩
  | some g =>
    by_cases hm : g ∈ D
    · exact ⟨[], by simp [dedupStep, hm]⟩
    · exact ⟨[g], by simp [dedupStep, hm]⟩

theorem dedupFrom_extends {G : Type} [DecidableEq G] (D : List G) (gs : List (Option G)) :
    ∃ t, dedupFrom D gs = D ++ t := by
  induction gs generalizing D with
  | nil => exact ⟨[], by simp [dedupFrom]⟩
  | cons g rest ih =>
    obtain ⟨d, hd⟩ := dedupStep_extends D g
    obtain ⟨t, ht⟩ := ih (dedupStep D g)
    exact ⟨d ++ t, by rw [dedupFrom, ht, hd, List.append_assoc]⟩

theorem classifyMark_extend {G : Type} [DecidableEq G] (D t : List G) (g : Option G)
    (hm : ∀ x, g = some x → x ∈ D) :
    classifyMark (D ++ t) g = classifyMark D g := by
  cases g with
  | none => rfl
  | some x =>
    have hx := hm x rfl
    simp [classifyMark, List.indexOf_append_of_mem hx]

theorem mem_dedupStep {G : Type} [DecidableEq G] (D : List G) (g : G) :
    g ∈ dedupStep D (some g) := by
  by_cases hm : g ∈ D <;> simp [dedupStep, hm]

theorem markRecords_eq_markedFrom {G : Type} [DecidableEq G]
    (os : List (LineageObj G)) (D : List G) (T : MarkTable G) (hInv : TableInv D T) :
    markRecords T os = markedFrom D os := by
  induction os generalizing D T with
  | nil => rfl
  | cons o rest ih =>
    obtain ⟨h1, h2⟩ := markStep_spec D T o.dataset_graph hInv
    simp only [markRecords, markedFrom]
    rw [h1, ih (dedupStep D o.dataset_graph) _ h2]

theorem markedFrom_classify {G : Type} [DecidableEq G]
    (os : List (LineageObj G)) (D : List G) :
    markedFrom D os = os.map (fun o =>
      { o with dataset_mark :=
          classifyMark (dedupFrom D (os.map (fun o => o.dataset_graph))) o.dataset_graph }) := by
  induction os generalizing D with
  | nil => rfl
  | cons o rest ih =>
    simp only [markedFrom, List.map_cons, dedupFrom]
    have hhead : classifyMark
        (dedupFrom (dedupStep D o.dataset_graph) (rest.map (fun o => o.dataset_graph)))
        o.dataset_graph = classifyMark (dedupStep D o.dataset_graph) o.dataset_graph := by
      obtain ⟨t, ht⟩ :=
        dedupFrom_extends (dedupStep D o.dataset_graph) (rest.map (fun o => o.dataset_graph))
      rw [ht]
      apply classifyMark_extend
      intro x hx
      rw [hx]
      exact mem_dedupStep D x
    rw [ih (dedupStep D o.dataset_graph), hhead]

theorem addDatasetMark_classify {G : Type} [DecidableEq G] (objs : List (LineageObj G)) :
    addDatasetMark objs = objs.map (fun o =>
      { o with dataset_mark :=
          classifyMark (dedupFrom [] (objs.map (fun o => o.dataset_graph))) o.dataset_graph }) := by
  rw [addDatasetMark,
    markRecords_eq_markedFrom objs [] [("1", none)] ⟨List.nodup_nil, Or.inl ⟨by simp, rfl⟩⟩,
    markedFrom_classify]

theorem addDatasetMark_length {G : Type} [DecidableEq G] (objs : List (LineageObj G)) :
    (addDatasetMark objs).length = objs.length := by
  rw [addDatasetMark_classify]; simp

/-- C4: after any grouping pass, two records with structurally equal
dataset graphs carry the same dataset mark (whatever the ingestion order —
the statement quantifies over every record sequence), and every record
with no dataset graph carries mark `"1"`. -/
theorem c4_equal_graphs_equal_marks {G : Type} [DecidableEq G] (objs : List (LineageObj G)) :
    (∀ i j (hi : i < (addDatasetMark objs).length) (hj : j < (addDatasetMark objs).length),
      ((addDatasetMark objs).get ⟨i, hi⟩).dataset_graph =
        ((addDatasetMark objs).get ⟨j, hj⟩).dataset_graph →
      ((addDatasetMark objs).get ⟨i, hi⟩).dataset_mark =
        ((addDatasetMark objs).get ⟨j, hj⟩).dataset_mark) ∧
    (∀ i (hi : i < (addDatasetMark objs).length),
      ((addDatasetMark objs).get ⟨i, hi⟩).dataset_graph = none →
      ((addDatasetMark objs).get ⟨i, hi⟩).dataset_mark = "1") := by
  have hlen : (addDatasetMark objs).length = objs.length := addDatasetMark_length objs
  have hmark : ∀ (i : Nat) (hi : i < (addDatasetMark objs).length),
      ((addDatasetMark objs).get ⟨i, hi⟩).dataset_mark =
        classifyMark (dedupFrom [] (objs.map (fun o => o.dataset_graph)))
          ((objs.get ⟨i, hlen ▸ hi⟩).dataset_graph) := by
    intro i hi
    rw [List.get_of_eq (addDatasetMark_classify objs), List.get_map]
  have hgraph : ∀ (i : Nat) (hi : i < (addDatasetMark objs).length),
      ((addDatasetMark objs).get ⟨i, hi⟩).dataset_graph =
        (objs.get ⟨i, hlen ▸ hi⟩).dataset_graph := by
    intro i hi
    rw [List.get_of_eq (addDatasetMark_classify objs), List.get_map]
  constructor
  · intro i j hi hj hgr
    rw [hgraph i hi, hgraph j hj] at hgr
    rw [hmark i hi, hmark j hj, hgr]
  · intro i hi hgr
    rw [hgraph i hi] at hgr
    rw [hmark i hi, hgr]
    rfl

/-- Witness for C4 at concrete inputs. -/
theorem c4_witness :
    ((addDatasetMark exC4Recs).get ⟨0, by decide⟩).dataset_mark =
      ((addDatasetMark exC4Recs).get ⟨2, by decide⟩).dataset_mark ∧
    ((addDatasetMark exC4Recs).get ⟨1, by decide⟩).dataset_mark = "1" :=
  ⟨(c4_equal_graphs_equal_marks exC4Recs).1 0 2 (by decide) (by decide) (by decide),
   (c4_equal_graphs_equal_marks exC4Recs).2 1 (by decide) (by decide)⟩

theorem addDatasetMark_map_graph {G : Type} [DecidableEq G] (objs : List (LineageObj G)) :
    (addDatasetMark objs).map (fun o => o.dataset_graph) =
      objs.map (fun o => o.dataset_graph) := by
  rw [addDatasetMark_classify]
  simp only [List.map_map]
  rfl

theorem addDatasetMark_map_dir {G : Type} [DecidableEq G] (objs : List (LineageObj G)) :
    (addDatasetMark objs).map (fun o => o.summary_dir) =
      objs.map (fun o => o.summary_dir) := by
  rw [addDatasetMark_classify]
  simp only [List.map_map]
  rfl

theorem addDatasetMark_absorb {G : Type} [DecidableEq G] (xs ys : List (LineageObj G)) :
    addDatasetMark (addDatasetMark xs ++ ys) = addDatasetMark (xs ++ ys) := by
  rw [addDatasetMark_classify (addDatasetMark xs ++ ys),
    addDatasetMark_classify (xs ++ ys), addDatasetMark_classify xs]
  have hg : List.map (fun o => o.dataset_graph)
      (List.map (fun o =>
        { o with dataset_mark :=
            (classifyMark (dedupFrom [] (List.map (fun o => o.dataset_graph) xs))
              o.dataset_graph) }) xs ++ ys) =
      List.map (fun o => o.dataset_graph) (xs ++ ys) := by
    simp only [List.map_append, List.map_map]
    rfl
  rw [hg]
  simp only [List.map_append, List.map_map]
  rfl

theorem pySortedByCmp_nil {α : Type} (cmp : α → α → Int) (rev : Bool) :
    pySortedByCmp cmp rev ([] : List α) = [] := by
  unfold pySortedByCmp
  split <;> rfl

theorem handle_limit_and_offset_nil {α : Type} (cond : List (String × CondValue)) :
    handle_limit_and_offset cond ([] : List α) = [] := by
  unfold handle_limit_and_offset
  split
  · rfl
  · simp [pySlice]

/-! ## Claim C8 -/

/-- C8: whenever a query succeeds, the reported `count` equals the length
of the filtered sequence before sorting and pagination — so `limit` and
`offset` never change the reported total — and a query matching no records
succeeds with count 0 and an empty object list. -/
theorem c8_count_is_prepagination_length {G : Type} [DecidableEq G]
    (parse : ParseOracle G) (fm : List String) (s s' : QuerierState G)
    (cond : List (String × CondValue)) (res : List (LineageObj G))
    (hretry : parseFailSummaryLogs parse s = .ok s')
    (hfilter : filterRecords fm cond s'.lineage_objects = .ok res)
    (hsort : dictHas cond ("sorted_name") = false ∨
      is_valid_field fm (condGetStr cond ("sorted_name")) = false) :
    ∃ info, filter_summary_lineage parse fm s (some cond) = .ok (s', info) ∧
      info.count = res.length ∧
      (res = [] → info = { object := [], count := 0 }) := by
  by_cases hh : dictHas cond ("sorted_name") = true
  · have hvf : is_valid_field fm (condGetStr cond ("sorted_name")) = false := by
      rcases hsort with h | h
      · rw [hh] at h; cases h
      · exact h
    have hfa : filterAfterRetry fm s' (some cond) = .ok
        { object := (handle_limit_and_offset cond
            (pySortedByCmp (cmpField (condGetStr cond ("sorted_name")))
              (dictGet cond ("sorted_type") == some (.cstr ("descending"))) res)).map
            (fun item => if dictGet cond ("lineage_type") == some (.cstr ("dataset"))
              then ObjectView.ds (to_dataset_lineage_dict item)
              else ObjectView.flt (to_filtration_dict item)),
          count := (pySortedByCmp (cmpField (condGetStr cond ("sorted_name")))
            (dictGet cond ("sorted_type") == some (.cstr ("descending"))) res).length } := by
      simp only [filterAfterRetry, Option.getD, hfilter, except_bind_ok, hh, if_true, hvf,
        Bool.false_eq_true, if_false]
    obtain ⟨info, hfa', hcount, hempty⟩ :
        ∃ info, filterAfterRetry fm s' (some cond) = .ok info ∧
          info.count = res.length ∧ (res = [] → info = { object := [], count := 0 }) := by
      refine ⟨_, hfa, ?_, ?_⟩
      · simp [pySortedByCmp_length]
      · intro h
        subst h
        simp [pySortedByCmp_nil, handle_limit_and_offset_nil]
    exact ⟨info, by simp only [filter_summary_lineage, hretry, except_bind_ok, hfa'],
      hcount, hempty⟩
  · have hh' : dictHas cond ("sorted_name") = false := by
      cases h : dictHas cond ("sorted_name")
      · rfl
      · exact absurd h hh
    have hfa : filterAfterRetry fm s' (some cond) = .ok
        { object := (handle_limit_and_offset cond res).map
            (fun item => if dictGet cond ("lineage_type") == some (.cstr ("dataset"))
              then ObjectView.ds (to_dataset_lineage_dict item)
              else ObjectView.flt (to_filtration_dict item)),
          count := res.length } := by
      simp only [filterAfterRetry, Option.getD, hfilter, except_bind_ok, hh',
        Bool.false_eq_true, if_false]
    obtain ⟨info, hfa', hcount, hempty⟩ :
        ∃ info, filterAfterRetry fm s' (some cond) = .ok info ∧
          info.count = res.length ∧ (res = [] → info = { object := [], count := 0 }) := by
      refine ⟨_, hfa, rfl, ?_⟩
      intro h
      subst h
      simp [handle_limit_and_offset_nil]
    exact ⟨info, by simp only [filter_summary_lineage, hretry, except_bind_ok, hfa'],
      hcount, hempty⟩

/-- Witness for C8 at a concrete input. -/
theorem c8_witness :
    ∃ info, filter_summary_lineage exParse0 (["learning_rate"]) exQs1
        (some ([] : List (String × CondValue))) = .ok (exQs1, info) ∧
      info.count = ([exRecLR] : List (LineageObj Nat)).length ∧
      (([exRecLR] : List (LineageObj Nat)) = [] → info = { object := [], count := 0 }) :=
  c8_count_is_prepagination_length exParse0 (["learning_rate"]) exQs1 exQs1 [] [exRecLR]
    rfl rfl (Or.inl (by decide))

theorem retryLoop_spec {G : Type} [DecidableEq G] (parse : ParseOracle G)
    (ps : List String) (s : QuerierState G)
    (hnf : ∀ p ∈ ps, (parse p).isFatal = false) :
    retryLoop parse ps s =
      .ok (retryStateAfter parse ps s, ps.filter (fun p => !(parseOk parse p))) := by
  induction ps generalizing s with
  | nil =>
    simp [retryLoop, retryStateAfter, insertAll, withIdx]
  | cons p rest ih =>
    have hnfp := hnf p (List.mem_cons_self _ _)
    have hnfrest : ∀ q ∈ rest, (parse q).isFatal = false :=
      fun q hq => hnf q (List.mem_cons_of_mem _ hq)
    cases hp : parse p with
    | failFatal e =>
      rw [ParseOutcome.isFatal.eq_def, hp] at hnfp
      cases hnfp
    | ok rec =>
      have hok : parseOk parse p = true := by simp [parseOk, hp]
      have hnew : newObjOf parse p = mkLineageObj (dirname p) rec := by
        simp [newObjOf, hp]
      simp only [retryLoop, parseSummaryLog, hp, except_bind_ok, if_true]
      rw [ih _ hnfrest]
      simp only [except_bind_ok, List.filter_cons, hok, Bool.not_true, Bool.false_eq_true,
        if_false, if_true]
      have hstate : retryStateAfter parse rest
          { lineage_objects :=
              addDatasetMark (s.lineage_objects ++ [mkLineageObj (dirname p) rec])
            index_map := dictInsert s.index_map (dirname p) s.size
            parse_failed_paths := s.parse_failed_paths
            size := s.size + 1 } =
          retryStateAfter parse (p :: rest) s := by
        simp only [retryStateAfter, QuerierState.mk.injEq, List.filter_cons, hok, if_true,
          true_and, and_true]
        refine ⟨?_, ?_, ?_⟩
        · cases hrest : rest.filter (fun q => parseOk parse q) with
          | nil => simp [hnew]
          | cons q qs =>
            simp only [hrest, List.isEmpty_cons, List.isEmpty_nil]
            simp only [Bool.false_eq_true, if_false]
            rw [addDatasetMark_absorb]
            simp [hnew, List.append_assoc]
        · simp [insertAll, withIdx]
        · simp only [List.length_cons]
          omega
      rw [hstate]
    | failRetryable =>
      have hok : parseOk parse p = false := by simp [parseOk, hp]
      simp only [retryLoop, parseSummaryLog, hp, except_bind_ok, Bool.false_eq_true, if_false]
      rw [ih _ hnfrest]
      simp only [except_bind_ok, List.filter_cons, hok, Bool.not_false, Bool.false_eq_true,
        if_false, if_true]
      have hstate : retryStateAfter parse rest s = retryStateAfter parse (p :: rest) s := by
        simp [retryStateAfter, List.filter_cons, hok]
      rw [hstate]

theorem parseFailSummaryLogs_spec {G : Type} [DecidableEq G] (parse : ParseOracle G)
    (s : QuerierState G)
    (hnf : ∀ p ∈ s.parse_failed_paths, (parse p).isFatal = false) :
    parseFailSummaryLogs parse s =
      .ok { retryStateAfter parse s.parse_failed_paths s with
              parse_failed_paths :=
                s.parse_failed_paths.filter (fun p => !(parseOk parse p)) } := by
  by_cases h : s.parse_failed_paths = []
  · obtain ⟨a, b, c, d⟩ := s
    simp only at h
    subst h
    rw [parseFailSummaryLogs]
    simp [retryStateAfter, insertAll, withIdx]
  · rw [parseFailSummaryLogs, if_neg h]
    rw [retryLoop_spec parse _ s hnf]
    rfl

/-! ## Claim C1 -/

/-- C1: both query operations begin with the retry pass, which re-attempts
each currently-failed path exactly once: paths that now parse are removed
from the failed list and appended to the record sequence, each newly
successful path is registered in the index map at the running `size` value,
which increments by one per success; paths that still fail remain in the
failed list in their original relative order, and no path is re-added to
the failed list during the pass. -/
theorem c1_retry_pass {G : Type} [DecidableEq G] (parse : ParseOracle G)
    (fm : List String) (s : QuerierState G)
    (hnf : ∀ p ∈ s.parse_failed_paths, (parse p).isFatal = false) :
    (∃ s', parseFailSummaryLogs parse s = .ok s' ∧
      s'.parse_failed_paths = s.parse_failed_paths.filter (fun p => !(parseOk parse p)) ∧
      s'.size = s.size + (s.parse_failed_paths.filter (fun p => parseOk parse p)).length ∧
      s'.index_map = insertAll s.index_map
        (withIdx (s.parse_failed_paths.filter (fun p => parseOk parse p)) s.size) ∧
      s'.lineage_objects =
        (if (s.parse_failed_paths.filter (fun p => parseOk parse p)).isEmpty then
          s.lineage_objects
        else addDatasetMark (s.lineage_objects ++
          (s.parse_failed_paths.filter (fun p => parseOk parse p)).map (newObjOf parse)))) ∧
    (∀ summary_dir filter_keys, get_summary_lineage parse s summary_dir filter_keys =
      (parseFailSummaryLogs parse s).bind (fun s' =>
        (getSummaryAfterRetry s' summary_dir filter_keys).map (fun r => (s', r)))) ∧
    (∀ condition, filter_summary_lineage parse fm s condition =
      (parseFailSummaryLogs parse s).bind (fun s' =>
        (filterAfterRetry fm s' condition).map (fun info => (s', info)))) := by
  refine ⟨⟨_, parseFailSummaryLogs_spec parse s hnf, rfl, rfl, rfl, rfl⟩,
    fun _ _ => rfl, fun _ => rfl⟩

/-- Witness for C1 at a concrete input: one retried path newly succeeds,
the other keeps failing. -/
theorem c1_witness :
    ∃ s', parseFailSummaryLogs exParseAB exQsRetry = .ok s' ∧
      s'.parse_failed_paths =
        exQsRetry.parse_failed_paths.filter (fun p => !(parseOk exParseAB p)) ∧
      s'.size = exQsRetry.size +
        (exQsRetry.parse_failed_paths.filter (fun p => parseOk exParseAB p)).length ∧
      s'.index_map = insertAll exQsRetry.index_map
        (withIdx (exQsRetry.parse_failed_paths.filter (fun p => parseOk exParseAB p))
          exQsRetry.size) ∧
      s'.lineage_objects =
        (if (exQsRetry.parse_failed_paths.filter (fun p => parseOk exParseAB p)).isEmpty then
          exQsRetry.lineage_objects
        else addDatasetMark (exQsRetry.lineage_objects ++
          (exQsRetry.parse_failed_paths.filter
            (fun p => parseOk exParseAB p)).map (newObjOf exParseAB))) :=
  (c1_retry_pass exParseAB (["learning_rate"]) exQsRetry (by decide)).1

theorem initLoop_spec {G : Type} [DecidableEq G] (parse : ParseOracle G)
    (ps : List String) (index : Nat) (s : QuerierState G)
    (hnf : ∀ p ∈ ps, (parse p).isFatal = false) :
    initLoop parse ps index s = .ok (initStateAfter parse ps index s) := by
  induction ps generalizing index s with
  | nil =>
    simp [initLoop, initStateAfter, insertAll, withIdx]
  | cons p rest ih =>
    have hnfp := hnf p (List.mem_cons_self _ _)
    have hnfrest : ∀ q ∈ rest, (parse q).isFatal = false :=
      fun q hq => hnf q (List.mem_cons_of_mem _ hq)
    cases hp : parse p with
    | failFatal e =>
      rw [ParseOutcome.isFatal.eq_def, hp] at hnfp
      cases hnfp
    | ok rec =>
      have hok : parseOk parse p = true := by simp [parseOk, hp]
      have hnew : newObjOf parse p = mkLineageObj (dirname p) rec := by
        simp [newObjOf, hp]
      simp only [initLoop, parseSummaryLog, hp, except_bind_ok, if_true]
      rw [ih _ _ hnfrest]
      have hstate : initStateAfter parse rest (index + 1)
          { lineage_objects :=
              addDatasetMark (s.lineage_objects ++ [mkLineageObj (dirname p) rec])
            index_map := dictInsert s.index_map (dirname p) index
            parse_failed_paths := s.parse_failed_paths
            size := s.size } =
          initStateAfter parse (p :: rest) index s := by
        simp only [initStateAfter, QuerierState.mk.injEq, List.filter_cons, hok, if_true,
          Bool.not_true, Bool.false_eq_true, if_false, true_and, and_true]
        refine ⟨?_, ?_⟩
        · cases hrest : rest.filter (fun q => parseOk parse q) with
          | nil => simp [hnew]
          | cons q qs =>
            simp only [hrest, List.isEmpty_cons, List.isEmpty_nil]
            simp only [Bool.false_eq_true, if_false]
            rw [addDatasetMark_absorb]
            simp [hnew, List.append_assoc]
        · simp [insertAll, withIdx]
      rw [hstate]
    | failRetryable =>
      have hok : parseOk parse p = false := by simp [parseOk, hp]
      simp only [initLoop, parseSummaryLog, hp, except_bind_ok, Bool.false_eq_true,
        if_false, if_true]
      rw [ih _ _ hnfrest]
      have hstate : initStateAfter parse rest index
          { s with parse_failed_paths := s.parse_failed_paths ++ [p] } =
          initStateAfter parse (p :: rest) index s := by
        simp [initStateAfter, List.filter_cons, hok]
      rw [hstate]

/-! ## Claim C9 -/

/-- C9 counterexample: a falsy non-string, non-list `summary_path` (Python
`None`, `0`, ...) hits the emptiness check first and raises the
parameter-VALUE error, not the parameter-type error the claim predicts for
every input that is neither a string nor a list. -/
theorem c9_counterexample :
    querierInit exParse0 (.pother false) =
      .error (.paramError ("summary_path") ("The summary path is empty.")) ∧
    QuerierError.paramError ("summary_path") ("The summary path is empty.") ≠
      QuerierError.paramTypeError ("Summary path is not str or list.") :=
  ⟨rfl, by decide⟩

/-- C9 (amended): each path of a list is parsed independently — a
retryable failure never aborts ingestion of the remaining paths, and after
all paths are attempted the terminal all-logs-unparsable error is raised
exactly when zero records were produced; a falsy `summary_path` (empty
string, empty list, or any falsy object) fails fast with a parameter-value
error, and a truthy argument that is neither a string nor a list fails fast
with a parameter-type error. -/
theorem c9_ingestion_independent {G : Type} [DecidableEq G] (parse : ParseOracle G) :
    (∀ ps : List String, ps ≠ [] → (∀ p ∈ ps, (parse p).isFatal = false) →
      ((ps.filter (fun p => parseOk parse p) = [] →
        querierInit parse (.plist ps) = .error .summaryParseError) ∧
       (ps.filter (fun p => parseOk parse p) ≠ [] →
        ∃ s, querierInit parse (.plist ps) = .ok s ∧
          s.lineage_objects.length = (ps.filter (fun p => parseOk parse p)).length ∧
          s.parse_failed_paths = ps.filter (fun p => !(parseOk parse p)) ∧
          s.size = (ps.filter (fun p => parseOk parse p)).length))) ∧
    (querierInit parse (.pstr ("")) =
      .error (.paramError ("summary_path") ("The summary path is empty."))) ∧
    (querierInit parse (.plist []) =
      .error (.paramError ("summary_path") ("The summary path is empty."))) ∧
    (querierInit parse (.pother true) =
      .error (.paramTypeError ("Summary path is not str or list."))) := by
  refine ⟨?_, rfl, rfl, rfl⟩
  intro ps hne hnf
  have hfalsy : pyFalsy (.plist ps) = false := by
    cases ps with
    | nil => exact absurd rfl hne
    | cons a as => rfl
  have hinit := initLoop_spec parse ps 0
    { lineage_objects := [], index_map := [], parse_failed_paths := [], size := 0 } hnf
  constructor
  · intro hsucc
    have hobjs : (initStateAfter parse ps 0
        { lineage_objects := [], index_map := [], parse_failed_paths := [], size := 0 }
        : QuerierState G).lineage_objects = [] := by
      simp [initStateAfter, hsucc]
    simp only [querierInit, parse_summary_logs, hfalsy, Bool.false_eq_true, if_false,
      hinit, except_bind_ok, hobjs, if_pos]
    rfl
  · intro hsucc
    have hlen : (initStateAfter parse ps 0
        { lineage_objects := [], index_map := [], parse_failed_paths := [], size := 0 }
        : QuerierState G).lineage_objects.length =
        (ps.filter (fun p => parseOk parse p)).length := by
      have hie : (ps.filter (fun p => parseOk parse p)).isEmpty = false := by
        cases hx : ps.filter (fun p => parseOk parse p) with
        | nil => exact absurd hx hsucc
        | cons a as => rfl
      simp [initStateAfter, hie, addDatasetMark_length]
    have hobjs : ¬ ((initStateAfter parse ps 0
        { lineage_objects := [], index_map := [], parse_failed_paths := [], size := 0 }
        : QuerierState G).lineage_objects = []) := by
      intro hc
      rw [hc] at hlen
      have : ps.filter (fun p => parseOk parse p) = [] := by
        cases hx : ps.filter (fun p => parseOk parse p) with
        | nil => rfl
        | cons a as => rw [hx] at hlen; cases hlen
      exact hsucc this
    refine ⟨{ initStateAfter parse ps 0
        { lineage_objects := [], index_map := [], parse_failed_paths := [], size := 0 } with
        size := (initStateAfter parse ps 0
          { lineage_objects := [], index_map := [], parse_failed_paths := [], size := 0 }
          : QuerierState G).lineage_objects.length }, ?_, ?_, ?_, ?_⟩
    · simp only [querierInit, parse_summary_logs, hfalsy, Bool.false_eq_true, if_false,
        hinit, except_bind_ok, hobjs, if_neg]
    · exact hlen
    · simp [initStateAfter]
    · exact hlen

/-- Witness for the amended C9 at concrete inputs. -/
theorem c9_witness :
    (∃ s, querierInit exParseA (.plist ["/a/x.log", "/b/y.log"]) = .ok s ∧
      s.lineage_objects.length =
        ((["/a/x.log", "/b/y.log"] : List String).filter
          (fun p => parseOk exParseA p)).length ∧
      s.parse_failed_paths = (["/a/x.log", "/b/y.log"] : List String).filter
        (fun p => !(parseOk exParseA p)) ∧
      s.size = ((["/a/x.log", "/b/y.log"] : List String).filter
        (fun p => parseOk exParseA p)).length) ∧
    querierInit exParseA (.pstr ("")) =
      .error (.paramError ("summary_path") ("The summary path is empty.")) :=
  ⟨((c9_ingestion_independent exParseA).1 (["/a/x.log", "/b/y.log"]) (by decide)
      (by decide)).2 (by decide),
   (c9_ingestion_independent exParseA).2.1⟩

theorem retryLoop_ok_no_fatal {G : Type} [DecidableEq G] (parse : ParseOracle G)
    (ps : List String) (s : QuerierState G) (r : QuerierState G × List String)
    (h : retryLoop parse ps s = .ok r) : ∀ p ∈ ps, (parse p).isFatal = false := by
  induction ps generalizing s r with
  | nil => intro p hp; cases hp
  | cons p rest ih =>
    intro q hq
    rcases List.mem_cons.mp hq with hq | hq
    · subst hq
      cases hp : parse q with
      | failFatal e =>
        rw [retryLoop, parseSummaryLog, hp] at h
        cases h
      | ok rec => rfl
      | failRetryable => rfl
    · cases hp : parse p with
      | failFatal e =>
        rw [retryLoop, parseSummaryLog, hp] at h
        cases h
      | ok rec =>
        rw [retryLoop, parseSummaryLog, hp] at h
        simp only [except_bind_ok, ite_true, if_true] at h
        cases hrest : retryLoop parse rest
            { lineage_objects :=
                addDatasetMark (s.lineage_objects ++ [mkLineageObj (dirname p) rec])
              index_map := dictInsert s.index_map (dirname p) s.size
              parse_failed_paths := s.parse_failed_paths
              size := s.size + 1 } with
        | error e => rw [hrest] at h; cases h
        | ok r₂ => exact ih _ _ hrest q hq
      | failRetryable =>
        rw [retryLoop, parseSummaryLog, hp] at h
        simp only [except_bind_ok, Bool.false_eq_true, if_false] at h
        cases hrest : retryLoop parse rest s with
        | error e => rw [hrest] at h; cases h
        | ok r₂ => exact ih _ _ hrest q hq

theorem parseFailSummaryLogs_ok_no_fatal {G : Type} [DecidableEq G]
    (parse : ParseOracle G) (s s' : QuerierState G)
    (h : parseFailSummaryLogs parse s = .ok s') :
    ∀ p ∈ s.parse_failed_paths, (parse p).isFatal = false := by
  rw [parseFailSummaryLogs] at h
  by_cases he : s.parse_failed_paths = []
  · rw [he]; intro p hp; cases hp
  · rw [if_neg he] at h
    cases hloop : retryLoop parse s.parse_failed_paths s with
    | error e => rw [hloop] at h; cases h
    | ok r => exact retryLoop_ok_no_fatal parse _ _ _ hloop

theorem find?_keys_none {α : Type} (m : List (String × α)) (k : String)
    (h : k ∉ m.map (fun kv => kv.1)) : m.find? (fun kv => kv.1 == k) = none := by
  induction m with
  | nil => rfl
  | cons kv rest ih =>
    have h1 : ¬ (kv.1 = k) := fun he => h (by simp [he])
    rw [List.find?_cons_of_neg _ (by simp [h1])]
    exact ih (fun hm => h (List.mem_cons_of_mem _ hm))

theorem dictGet_insertAll {α : Type} (l : List (String × α)) (m : List (String × α))
    (d : String) (hnd : (l.map (fun kv => kv.1)).Nodup) :
    dictGet (insertAll m l) d =
      match l.find? (fun kv => kv.1 == d) with
      | some kv => some kv.2
      | none => dictGet m d := by
  induction l generalizing m with
  | nil => rfl
  | cons kv rest ih =>
    have hnd' : (rest.map (fun kv => kv.1)).Nodup := (List.nodup_cons.mp hnd).2
    have hknotin : kv.1 ∉ rest.map (fun kv => kv.1) := (List.nodup_cons.mp hnd).1
    by_cases hd : kv.1 = d
    · subst hd
      rw [List.find?_cons_of_pos _ (by simp)]
      have hrest : rest.find? (fun kv2 => kv2.1 == kv.1) = none :=
        find?_keys_none rest kv.1 hknotin
      show dictGet (insertAll (dictInsert m kv.1 kv.2) rest) kv.1 = some kv.2
      rw [ih (dictInsert m kv.1 kv.2) hnd', hrest, dictGet_dictInsert]
      simp
    · rw [List.find?_cons_of_neg _ (by simp [hd])]
      show dictGet (insertAll (dictInsert m kv.1 kv.2) rest) d = _
      rw [ih (dictInsert m kv.1 kv.2) hnd', dictGet_dictInsert]
      simp [Ne.symm hd]

theorem withIdx_keys (ps : List String) (n : Nat) :
    (withIdx ps n).map (fun kv => kv.1) = ps.map dirname := by
  induction ps generalizing n with
  | nil => rfl
  | cons p rest ih => simp [withIdx, ih]

theorem find?_withIdx_of_mem (ps : List String) (n : Nat) (j : Nat) (hj : j < ps.length)
    (hnd : (ps.map dirname).Nodup) :
    (withIdx ps n).find? (fun kv => kv.1 == dirname (ps.get ⟨j, hj⟩)) =
      some (dirname (ps.get ⟨j, hj⟩), n + j) := by
  induction ps generalizing n j with
  | nil => cases hj
  | cons p rest ih =>
    cases j with
    | zero =>
      rw [withIdx, List.find?_cons_of_pos _ (by simp)]
      simp
    | succ j =>
      have hj' : j < rest.length := Nat.lt_of_succ_lt_succ hj
      have hmem : dirname (rest.get ⟨j, hj'⟩) ∈ rest.map dirname :=
        List.mem_map_of_mem dirname (rest.get_mem j hj')
      have hgs : (p :: rest).get ⟨j + 1, hj⟩ = rest.get ⟨j, hj'⟩ := rfl
      have hne : ¬ (dirname p = dirname (rest.get ⟨j, hj'⟩)) := by
        intro he
        exact (List.nodup_cons.mp hnd).1 (he ▸ hmem)
      rw [hgs, withIdx, List.find?_cons_of_neg _ (by simpa using hne)]
      rw [ih (n + 1) j hj' (List.nodup_cons.mp hnd).2]
      have harith : n + 1 + j = n + (j + 1) := by omega
      rw [harith]

theorem find?_withIdx_eq_some (ps : List String) (n : Nat) (d : String)
    (kv : String × Nat) (h : (withIdx ps n).find? (fun kv => kv.1 == d) = some kv) :
    ∃ j, ∃ hj : j < ps.length,
      kv = (dirname (ps.get ⟨j, hj⟩), n + j) ∧ d = dirname (ps.get ⟨j, hj⟩) := by
  induction ps generalizing n with
  | nil => cases h
  | cons p rest ih =>
    rw [withIdx] at h
    by_cases hd : dirname p = d
    · rw [List.find?_cons_of_pos _ (by simp [hd])] at h
      refine ⟨0, by simp, ?_, ?_⟩
      · cases h
        simp
      · simp [hd]
    · rw [List.find?_cons_of_neg _ (by simp [hd])] at h
      obtain ⟨j, hj, h1, h2⟩ := ih (n + 1) h
      refine ⟨j + 1, by simpa using Nat.succ_lt_succ hj, ?_, ?_⟩
      · show kv = (dirname (rest.get ⟨j, hj⟩), n + (j + 1))
        rw [h1]
        have : n + 1 + j = n + (j + 1) := by omega
        rw [this]
      · exact h2

theorem newObjOf_dir {G : Type} [DecidableEq G] (parse : ParseOracle G) (p : String) :
    (newObjOf parse p).summary_dir = dirname p := by
  unfold newObjOf
  cases parse p <;> rfl

theorem addDatasetMark_get_dir {G : Type} [DecidableEq G] (l : List (LineageObj G))
    (k : Nat) (h : k < (addDatasetMark l).length) :
    ((addDatasetMark l).get ⟨k, h⟩).summary_dir =
      (l.get ⟨k, (addDatasetMark_length l) ▸ h⟩).summary_dir := by
  rw [List.get_of_eq (addDatasetMark_classify l), List.get_map]

theorem initLoop_ok_no_fatal {G : Type} [DecidableEq G] (parse : ParseOracle G)
    (ps : List String) (index : Nat) (s : QuerierState G) (r : QuerierState G)
    (h : initLoop parse ps index s = .ok r) : ∀ p ∈ ps, (parse p).isFatal = false := by
  induction ps generalizing index s r with
  | nil => intro p hp; cases hp
  | cons p rest ih =>
    intro q hq
    rcases List.mem_cons.mp hq with hq | hq
    · subst hq
      cases hp : parse q with
      | failFatal e =>
        rw [initLoop, parseSummaryLog, hp] at h
        cases h
      | ok rec => rfl
      | failRetryable => rfl
    · cases hp : parse p with
      | failFatal e =>
        rw [initLoop, parseSummaryLog, hp] at h
        cases h
      | ok rec =>
        rw [initLoop, parseSummaryLog, hp] at h
        simp only [except_bind_ok, ite_true, if_true] at h
        exact ih _ _ _ h q hq
      | failRetryable =>
        rw [initLoop, parseSummaryLog, hp] at h
        simp only [except_bind_ok, Bool.false_eq_true, if_false, ite_false] at h
        exact ih _ _ _ h q hq

theorem newObjs_dirs {G : Type} [DecidableEq G] (parse : ParseOracle G) (succ : List String) :
    (succ.map (newObjOf parse)).map (fun o => o.summary_dir) = succ.map dirname := by
  rw [List.map_map]
  exact List.map_congr_left (fun p _ => newObjOf_dir parse p)

theorem grown_objs_dirs {G : Type} [DecidableEq G] (parse : ParseOracle G)
    (objs : List (LineageObj G)) (succ : List String) :
    ((if succ.isEmpty then objs
      else addDatasetMark (objs ++ succ.map (newObjOf parse))).map
        (fun o => o.summary_dir)) =
      objs.map (fun o => o.summary_dir) ++ succ.map dirname := by
  cases succ with
  | nil => simp
  | cons q qs =>
    simp only [List.isEmpty_cons, Bool.false_eq_true, if_false]
    rw [addDatasetMark_map_dir, List.map_append, newObjs_dirs]

theorem fail_dirs_fresh {G : Type} [DecidableEq G] (parse : ParseOracle G)
    (ps : List String) (hnd : (ps.map dirname).Nodup) :
    ∀ p ∈ ps.filter (fun p => !(parseOk parse p)),
      dirname p ∉ (ps.filter (fun p => parseOk parse p)).map dirname := by
  intro p hp hmem
  obtain ⟨q, hq, hdq⟩ := List.mem_map.mp hmem
  have hpo : parseOk parse p = false := by simpa using (List.mem_filter.mp hp).2
  have hqo : parseOk parse q = true := by simpa using (List.mem_filter.mp hq).2
  have hqp : q = p :=
    List.inj_on_of_nodup_map hnd (List.mem_of_mem_filter hq)
      (List.mem_of_mem_filter hp) hdq
  rw [hqp, hpo] at hqo
  cases hqo

theorem get_append_offset {α : Type} (l₁ l₂ : List α) (j : Nat) (hj : j < l₂.length)
    (h : l₁.length + j < (l₁ ++ l₂).length) :
    (l₁ ++ l₂).get ⟨l₁.length + j, h⟩ = l₂.get ⟨j, hj⟩ := by
  simp only [List.get_eq_getElem]
  rw [List.getElem_append_right (by omega)]
  congr 1
  omega

theorem core_index_ok {G : Type} [DecidableEq G] (parse : ParseOracle G)
    (objs : List (LineageObj G)) (M : List (String × Nat)) (succ : List String)
    (hB : ∀ k (h : k < objs.length),
      dictGet M ((objs.get ⟨k, h⟩).summary_dir) = some k)
    (hD : ∀ d i, dictGet M d = some i →
      ∃ h : i < objs.length, (objs.get ⟨i, h⟩).summary_dir = d)
    (hnd : (succ.map dirname).Nodup)
    (hfresh : ∀ p ∈ succ, dirname p ∉ objs.map (fun o => o.summary_dir)) :
    ((addDatasetMark (objs ++ succ.map (newObjOf parse))).length =
      objs.length + succ.length) ∧
    (∀ k (h : k < (addDatasetMark (objs ++ succ.map (newObjOf parse))).length),
      dictGet (insertAll M (withIdx succ objs.length))
        (((addDatasetMark (objs ++ succ.map (newObjOf parse))).get
          ⟨k, h⟩).summary_dir) = some k) ∧
    (∀ d i, dictGet (insertAll M (withIdx succ objs.length)) d = some i →
      ∃ h : i < (addDatasetMark (objs ++ succ.map (newObjOf parse))).length,
        ((addDatasetMark (objs ++ succ.map (newObjOf parse))).get
          ⟨i, h⟩).summary_dir = d) := by
  have hwk : (withIdx succ objs.length).map (fun kv => kv.1) = succ.map dirname :=
    withIdx_keys succ objs.length
  have hwnd : ((withIdx succ objs.length).map (fun kv => kv.1)).Nodup := by
    rw [hwk]; exact hnd
  have hAlen : (addDatasetMark (objs ++ succ.map (newObjOf parse))).length =
      objs.length + succ.length := by
    rw [addDatasetMark_length]
    simp
  have hdir_left : ∀ (k : Nat) (hk : k < objs.length)
      (h : k < (addDatasetMark (objs ++ succ.map (newObjOf parse))).length),
      ((addDatasetMark (objs ++ succ.map (newObjOf parse))).get ⟨k, h⟩).summary_dir =
        (objs.get ⟨k, hk⟩).summary_dir := by
    intro k hk h
    rw [addDatasetMark_get_dir _ k h, List.get_append k hk]
  have hdir_right : ∀ (j : Nat) (hj : j < succ.length)
      (h : objs.length + j <
        (addDatasetMark (objs ++ succ.map (newObjOf parse))).length),
      ((addDatasetMark (objs ++ succ.map (newObjOf parse))).get
        ⟨objs.length + j, h⟩).summary_dir = dirname (succ.get ⟨j, hj⟩) := by
    intro j hj h
    have hjm : j < (succ.map (newObjOf parse)).length := by simpa using hj
    rw [addDatasetMark_get_dir _ _ h,
      get_append_offset objs (succ.map (newObjOf parse)) j hjm _, List.get_map]
    exact newObjOf_dir parse _
  refine ⟨hAlen, ?_, ?_⟩
  · intro k h
    rcases Nat.lt_or_ge k objs.length with hk | hk
    · rw [hdir_left k hk h]
      have hnotin : (objs.get ⟨k, hk⟩).summary_dir ∉
          (withIdx succ objs.length).map (fun kv => kv.1) := by
        rw [hwk]
        intro hmem
        obtain ⟨p, hp, hdp⟩ := List.mem_map.mp hmem
        exact hfresh p hp (hdp ▸ List.mem_map_of_mem _ (objs.get_mem k hk))
      rw [dictGet_insertAll _ _ _ hwnd, find?_keys_none _ _ hnotin]
      exact hB k hk
    · have hk2 : k < objs.length + succ.length := hAlen ▸ h
      have hj : k - objs.length < succ.length := by omega
      have hkeq : objs.length + (k - objs.length) = k := by omega
      rw [show (⟨k, h⟩ :
          Fin (addDatasetMark (objs ++ succ.map (newObjOf parse))).length) =
          ⟨objs.length + (k - objs.length), by omega⟩ by congr 1; omega]
      rw [hdir_right (k - objs.length) hj (by omega),
        dictGet_insertAll _ _ _ hwnd,
        find?_withIdx_of_mem succ objs.length (k - objs.length) hj hnd]
      simp only
      rw [hkeq]
  · intro d i hdi
    rw [dictGet_insertAll _ _ _ hwnd] at hdi
    cases hfind : (withIdx succ objs.length).find? (fun kv => kv.1 == d) with
    | some kv =>
      rw [hfind] at hdi
      simp only [Option.some.injEq] at hdi
      obtain ⟨j, hj, hkv, hd⟩ := find?_withIdx_eq_some succ objs.length d kv hfind
      have hi : i = objs.length + j := by rw [hkv] at hdi; exact hdi.symm
      subst hi
      refine ⟨by omega, ?_⟩
      rw [hdir_right j hj (by omega)]
      exact hd.symm
    | none =>
      rw [hfind] at hdi
      obtain ⟨hlt, hdir⟩ := hD d i hdi
      refine ⟨by omega, ?_⟩
      rw [hdir_left i hlt (by omega)]
      exact hdir

theorem grown_index_ok {G : Type} [DecidableEq G] (parse : ParseOracle G)
    (objs : List (LineageObj G)) (M : List (String × Nat)) (succ : List String)
    (hB : ∀ k (h : k < objs.length),
      dictGet M ((objs.get ⟨k, h⟩).summary_dir) = some k)
    (hD : ∀ d i, dictGet M d = some i →
      ∃ h : i < objs.length, (objs.get ⟨i, h⟩).summary_dir = d)
    (hnd : (succ.map dirname).Nodup)
    (hfresh : ∀ p ∈ succ, dirname p ∉ objs.map (fun o => o.summary_dir)) :
    ((if succ.isEmpty then objs
      else addDatasetMark (objs ++ succ.map (newObjOf parse))).length =
      objs.length + succ.length) ∧
    (∀ k (h : k < (if succ.isEmpty then objs
        else addDatasetMark (objs ++ succ.map (newObjOf parse))).length),
      dictGet (insertAll M (withIdx succ objs.length))
        (((if succ.isEmpty then objs
          else addDatasetMark (objs ++ succ.map (newObjOf parse))).get
            ⟨k, h⟩).summary_dir) = some k) ∧
    (∀ d i, dictGet (insertAll M (withIdx succ objs.length)) d = some i →
      ∃ h : i < (if succ.isEmpty then objs
        else addDatasetMark (objs ++ succ.map (newObjOf parse))).length,
        ((if succ.isEmpty then objs
          else addDatasetMark (objs ++ succ.map (newObjOf parse))).get
            ⟨i, h⟩).summary_dir = d) := by
  by_cases hemp : succ.isEmpty = true
  · have hsq : succ = [] := by
      cases succ with
      | nil => rfl
      | cons a as => cases hemp
    subst hsq
    have hl : (if ([] : List String).isEmpty then objs
        else addDatasetMark (objs ++ ([] : List String).map (newObjOf parse))) = objs := by
      simp
    refine ⟨by rw [hl]; simp, ?_, ?_⟩
    · intro k h
      rw [List.get_of_eq hl]
      have h2 : k < objs.length := by rw [hl] at h; exact h
      simp only [withIdx, insertAll, List.foldl_nil]
      exact hB k h2
    · intro d i hdi
      simp only [withIdx, insertAll, List.foldl_nil] at hdi
      obtain ⟨hlt, hdir⟩ := hD d i hdi
      refine ⟨by rw [hl]; exact hlt, ?_⟩
      rw [List.get_of_eq hl]
      exact hdir
  · have hne : succ.isEmpty = false := by
      cases hx : succ.isEmpty
      · rfl
      · exact absurd hx hemp
    have hl : (if succ.isEmpty then objs
        else addDatasetMark (objs ++ succ.map (newObjOf parse))) =
        addDatasetMark (objs ++ succ.map (newObjOf parse)) := by
      rw [hne]
      simp
    obtain ⟨h1, h2, h3⟩ := core_index_ok parse objs M succ hB hD hnd hfresh
    refine ⟨by rw [hl]; exact h1, ?_, ?_⟩
    · intro k h
      rw [List.get_of_eq hl]
      exact h2 k (by rw [hl] at h; exact h)
    · intro d i hdi
      obtain ⟨hlt, hdir⟩ := h3 d i hdi
      refine ⟨by rw [hl]; exact hlt, ?_⟩
      rw [List.get_of_eq hl]
      exact hdir

theorem retry_StateOK {G : Type} [DecidableEq G] (parse : ParseOracle G)
    (s s' : QuerierState G) (hok : StateOK s)
    (h : parseFailSummaryLogs parse s = .ok s') : StateOK s' := by
  obtain ⟨hsz, hB, hD, hfnd, hffresh⟩ := hok
  have hnf := parseFailSummaryLogs_ok_no_fatal parse s s' h
  rw [parseFailSummaryLogs_spec parse s hnf] at h
  have hs' : ({ retryStateAfter parse s.parse_failed_paths s with
      parse_failed_paths :=
        s.parse_failed_paths.filter (fun p => !(parseOk parse p)) } : QuerierState G) = s' := by
    injection h
  subst hs'
  have hfanod : ((s.parse_failed_paths.filter
      (fun p => !(parseOk parse p))).map dirname).Nodup :=
    List.Nodup.sublist (List.Sublist.map dirname (List.filter_sublist _)) hfnd
  have hsunod : ((s.parse_failed_paths.filter
      (fun p => parseOk parse p)).map dirname).Nodup :=
    List.Nodup.sublist (List.Sublist.map dirname (List.filter_sublist _)) hfnd
  have hsufresh : ∀ p ∈ s.parse_failed_paths.filter (fun p => parseOk parse p),
      dirname p ∉ s.lineage_objects.map (fun o => o.summary_dir) :=
    fun p hp => hffresh p (List.mem_of_mem_filter hp)
  obtain ⟨g1, g2, g3⟩ := grown_index_ok parse s.lineage_objects s.index_map
    (s.parse_failed_paths.filter (fun p => parseOk parse p)) hB hD hsunod hsufresh
  have hfr : ∀ p ∈ s.parse_failed_paths.filter (fun p => !(parseOk parse p)),
      dirname p ∉ ((if (s.parse_failed_paths.filter
        (fun p => parseOk parse p)).isEmpty then s.lineage_objects
        else addDatasetMark (s.lineage_objects ++
          (s.parse_failed_paths.filter (fun p => parseOk parse p)).map
            (newObjOf parse))).map (fun o => o.summary_dir)) := by
    intro p hp
    rw [grown_objs_dirs]
    intro hmem
    rcases List.mem_append.mp hmem with hmem | hmem
    · exact hffresh p (List.mem_of_mem_filter hp) hmem
    · exact fail_dirs_fresh parse s.parse_failed_paths hfnd p hp hmem
  have hsz' : s.size + (s.parse_failed_paths.filter
      (fun p => parseOk parse p)).length =
      (if (s.parse_failed_paths.filter
        (fun p => parseOk parse p)).isEmpty then s.lineage_objects
        else addDatasetMark (s.lineage_objects ++
          (s.parse_failed_paths.filter (fun p => parseOk parse p)).map
            (newObjOf parse))).length := by
    rw [g1, hsz]
  have hB' : ∀ k (hk : k < (if (s.parse_failed_paths.filter
      (fun p => parseOk parse p)).isEmpty then s.lineage_objects
      else addDatasetMark (s.lineage_objects ++
        (s.parse_failed_paths.filter (fun p => parseOk parse p)).map
          (newObjOf parse))).length),
      dictGet (insertAll s.index_map
        (withIdx (s.parse_failed_paths.filter (fun p => parseOk parse p)) s.size))
        (((if (s.parse_failed_paths.filter
          (fun p => parseOk parse p)).isEmpty then s.lineage_objects
          else addDatasetMark (s.lineage_objects ++
            (s.parse_failed_paths.filter (fun p => parseOk parse p)).map
              (newObjOf parse))).get ⟨k, hk⟩).summary_dir) = some k := by
    rw [hsz]
    exact g2
  have hD' : ∀ d i, dictGet (insertAll s.index_map
      (withIdx (s.parse_failed_paths.filter (fun p => parseOk parse p)) s.size)) d =
        some i →
      ∃ hk : i < (if (s.parse_failed_paths.filter
        (fun p => parseOk parse p)).isEmpty then s.lineage_objects
        else addDatasetMark (s.lineage_objects ++
          (s.parse_failed_paths.filter (fun p => parseOk parse p)).map
            (newObjOf parse))).length,
        ((if (s.parse_failed_paths.filter
          (fun p => parseOk parse p)).isEmpty then s.lineage_objects
          else addDatasetMark (s.lineage_objects ++
            (s.parse_failed_paths.filter (fun p => parseOk parse p)).map
              (newObjOf parse))).get ⟨i, hk⟩).summary_dir = d := by
    rw [hsz]
    exact g3
  exact ⟨hsz', hB', hD', hfanod, hfr⟩

theorem init_StateOK {G : Type} [DecidableEq G] (parse : ParseOracle G)
    (ps : List String) (hnd : (ps.map dirname).Nodup) (s : QuerierState G)
    (h : querierInit parse (.plist ps) = .ok s) : StateOK s := by
  by_cases hps : ps = []
  · subst hps
    have he : querierInit parse (.plist ([] : List String)) =
        (.error (.paramError ("summary_path") ("The summary path is empty."))
          : Except QuerierError (QuerierState G)) := rfl
    rw [he] at h
    exact Except.noConfusion h
  · have hfalsy : pyFalsy (.plist ps) = false := by
      cases ps with
      | nil => exact absurd rfl hps
      | cons a as => rfl
    cases hinit : initLoop parse ps 0
        ({ lineage_objects := [], index_map := [], parse_failed_paths := [], size := 0 }
          : QuerierState G) with
    | error e =>
      simp only [querierInit, parse_summary_logs, hfalsy, Bool.false_eq_true, if_false,
        hinit, except_bind_err] at h
      exact Except.noConfusion h
    | ok s₁ =>
      have hnf := initLoop_ok_no_fatal parse ps 0 _ s₁ hinit
      have hspec := initLoop_spec parse ps 0
        ({ lineage_objects := [], index_map := [], parse_failed_paths := [], size := 0 }
          : QuerierState G) hnf
      rw [hinit] at hspec
      injection hspec with hs₁
      subst hs₁
      by_cases hobjs : (initStateAfter parse ps 0
          ({ lineage_objects := [], index_map := [], parse_failed_paths := [], size := 0 }
            : QuerierState G)).lineage_objects = []
      · simp only [querierInit, parse_summary_logs, hfalsy, Bool.false_eq_true, if_false,
          hinit, except_bind_ok, hobjs, if_pos, except_bind_err] at h
        exact Except.noConfusion h
      · simp only [querierInit, parse_summary_logs, hfalsy, Bool.false_eq_true, if_false,
          hinit, except_bind_ok, hobjs, if_neg, except_bind_err] at h
        injection h with hs
        subst hs
        have hsnd : ((ps.filter (fun p => parseOk parse p)).map dirname).Nodup :=
          List.Nodup.sublist (List.Sublist.map dirname (List.filter_sublist _)) hnd
        have hfnd : ((ps.filter (fun p => !(parseOk parse p))).map dirname).Nodup :=
          List.Nodup.sublist (List.Sublist.map dirname (List.filter_sublist _)) hnd
        have hB0 : ∀ k (hk : k < ([] : List (LineageObj G)).length),
            dictGet ([] : List (String × Nat))
              ((([] : List (LineageObj G)).get ⟨k, hk⟩).summary_dir) = some k :=
          fun k hk => absurd hk (Nat.not_lt_zero k)
        have hD0 : ∀ d i, dictGet ([] : List (String × Nat)) d = some i →
            ∃ hk : i < ([] : List (LineageObj G)).length,
              (([] : List (LineageObj G)).get ⟨i, hk⟩).summary_dir = d :=
          fun d i hdi => Option.noConfusion hdi
        have hfresh0 : ∀ p ∈ ps.filter (fun p => parseOk parse p),
            dirname p ∉ ([] : List (LineageObj G)).map (fun o => o.summary_dir) :=
          fun p _ hm => absurd hm (List.not_mem_nil _)
        obtain ⟨g1, g2, g3⟩ := grown_index_ok parse ([] : List (LineageObj G))
          ([] : List (String × Nat)) (ps.filter (fun p => parseOk parse p))
          hB0 hD0 hsnd hfresh0
        have hfr : ∀ p ∈ ps.filter (fun p => !(parseOk parse p)),
            dirname p ∉ ((if (ps.filter (fun p => parseOk parse p)).isEmpty then
                ([] : List (LineageObj G))
              else addDatasetMark (([] : List (LineageObj G)) ++
                (ps.filter (fun p => parseOk parse p)).map (newObjOf parse))).map
                  (fun o => o.summary_dir)) := by
          intro p hp
          rw [grown_objs_dirs]
          simp only [List.map_nil, List.nil_append]
          exact fail_dirs_fresh parse ps hnd p hp
        exact ⟨rfl, g2, g3, hfnd, hfr⟩

theorem getSummaryAfterRetry_ok_dir {G : Type} (s : QuerierState G) (dir : String)
    (fk : Option (List String)) (r : List SummaryInfo)
    (h : getSummaryAfterRetry s (some dir) fk = .ok r) :
    ∃ keys i obj, dictGet s.index_map dir = some i ∧
      s.lineage_objects.get? i = some obj ∧ r = [get_summary_info obj keys] := by
  cases fk with
  | none =>
    cases hd : dictGet s.index_map dir with
    | none =>
      have he : getSummaryAfterRetry s (some dir) none =
          .error (.paramError ("summary_dir")
            ("Summary dir " ++ dir ++ " does not exist.")) := by
        simp only [getSummaryAfterRetry, hd, except_bind_ok]
      rw [he] at h
      exact Except.noConfusion h
    | some i =>
      cases hg : s.lineage_objects.get? i with
      | none =>
        have he : getSummaryAfterRetry s (some dir) none = .error .pyRuntime := by
          simp only [getSummaryAfterRetry, hd, hg, except_bind_ok]
        rw [he] at h
        exact Except.noConfusion h
      | some obj =>
        have he : getSummaryAfterRetry s (some dir) none =
            .ok [get_summary_info obj filter_key_list] := by
          simp only [getSummaryAfterRetry, hd, hg, except_bind_ok]
        rw [he] at h
        injection h with hr
        exact ⟨filter_key_list, i, obj, rfl, hg, hr.symm⟩
  | some ks =>
    cases hfind : ks.find? (fun k => !(is_valid_filter_key k)) with
    | some k =>
      have he : getSummaryAfterRetry s (some dir) (some ks) =
          .error (.paramError ("filter_keys")
            ("The filter key " ++ k ++ " is invalid.")) := by
        simp only [getSummaryAfterRetry, hfind, except_bind_err]
      rw [he] at h
      exact Except.noConfusion h
    | none =>
      cases hd : dictGet s.index_map dir with
      | none =>
        have he : getSummaryAfterRetry s (some dir) (some ks) =
            .error (.paramError ("summary_dir")
              ("Summary dir " ++ dir ++ " does not exist.")) := by
          simp only [getSummaryAfterRetry, hfind, hd, except_bind_ok]
        rw [he] at h
        exact Except.noConfusion h
      | some i =>
        cases hg : s.lineage_objects.get? i with
        | none =>
          have he : getSummaryAfterRetry s (some dir) (some ks) = .error .pyRuntime := by
            simp only [getSummaryAfterRetry, hfind, hd, hg, except_bind_ok]
          rw [he] at h
          exact Except.noConfusion h
        | some obj =>
          have he : getSummaryAfterRetry s (some dir) (some ks) =
              .ok [get_summary_info obj ks] := by
            simp only [getSummaryAfterRetry, hfind, hd, hg, except_bind_ok]
          rw [he] at h
          injection h with hr
          exact ⟨ks, i, obj, rfl, hg, hr.symm⟩

/-- C10: for a querier whose ingested log paths lie in pairwise-distinct
directories, every reachable state (after construction and after every
retry pass) satisfies the index invariant `StateOK` — the directory of the
record at each position resolves through `_index_map` to exactly that
position and vice versa — and consequently every successful
`get_summary_lineage` with a `summary_dir` returns precisely the record
registered for that directory (including records added by a later
successful retry, since the consequence covers the healed state). -/
theorem c10_index_invariant {G : Type} [DecidableEq G] (ps : List String)
    (hnd : (ps.map dirname).Nodup) (s : QuerierState G) (hr : Reachable ps s) :
    StateOK s ∧
    (∀ (parse : ParseOracle G) (dir : String) (filter_keys : Option (List String))
      (s' : QuerierState G) (r : List SummaryInfo),
      get_summary_lineage parse s (some dir) filter_keys = .ok (s', r) →
      ∃ (i : Nat) (hi : i < s'.lineage_objects.length) (keys : List String),
        dictGet s'.index_map dir = some i ∧
        (s'.lineage_objects.get ⟨i, hi⟩).summary_dir = dir ∧
        r = [get_summary_info (s'.lineage_objects.get ⟨i, hi⟩) keys]) := by
  have hok : StateOK s := by
    induction hr with
    | init parse s h => exact init_StateOK parse ps hnd s h
    | retry parse s s' hprev hstep ih => exact retry_StateOK parse s s' ih hstep
  refine ⟨hok, ?_⟩
  intro parse dir fk s' r hq
  cases hpf : parseFailSummaryLogs parse s with
  | error e =>
    simp only [get_summary_lineage, hpf, except_bind_err] at hq
    exact Except.noConfusion hq
  | ok s₁ =>
    have hok₁ : StateOK s₁ := retry_StateOK parse s s₁ hok hpf
    simp only [get_summary_lineage, hpf, except_bind_ok] at hq
    cases hga : getSummaryAfterRetry s₁ (some dir) fk with
    | error e =>
      simp only [hga, except_bind_err] at hq
      exact Except.noConfusion hq
    | ok r₁ =>
      simp only [hga, except_bind_ok] at hq
      injection hq with hpr
      injection hpr with h1 h2
      subst h1
      subst h2
      obtain ⟨keys, i, obj, hd, hg, hr2⟩ := getSummaryAfterRetry_ok_dir s₁ dir fk r₁ hga
      obtain ⟨hsz, hB, hD, hfa, hfb⟩ := hok₁
      obtain ⟨hi, hdir⟩ := hD dir i hd
      have hobj : obj = s₁.lineage_objects.get ⟨i, hi⟩ := by
        rw [List.get?_eq_get hi] at hg
        injection hg with hg2
        exact hg2.symm
      refine ⟨i, hi, keys, hd, hdir, ?_⟩
      rw [hr2, hobj]

/-- Witness for C10 at a concrete querier: the index invariant holds after
construction, and the lookup of `/a` after the retry pass that heals
`/b/y.log` returns exactly the `/a` record. -/
theorem c10_witness :
    ((["/a/x.log", "/b/y.log"] : List String).map dirname).Nodup ∧
    StateOK exQsInit ∧
    (∃ (i : Nat) (hi : i < exQsHealed.lineage_objects.length) (keys : List String),
      dictGet exQsHealed.index_map ("/a") = some i ∧
      (exQsHealed.lineage_objects.get ⟨i, hi⟩).summary_dir = "/a" ∧
      [get_summary_info exObjA filter_key_list] =
        [get_summary_info (exQsHealed.lineage_objects.get ⟨i, hi⟩) keys]) := by
  have hc := c10_index_invariant (["/a/x.log", "/b/y.log"]) (by decide) exQsInit
    (Reachable.init exParseA exQsInit rfl)
  exact ⟨by decide, hc.1,
    hc.2 exParseAB ("/a") none exQsHealed ([get_summary_info exObjA filter_key_list]) rfl⟩
